import Mathlib

set_option maxHeartbeats 1000000

/-
  Verification development for the TRUtils library.

  Shallow embedding of the headers under include/trutils/:
    sparse_map.hpp  (Key, SparseMap  — the spec's HandleAllocator)
    slot_map.hpp    (SlotMap        — the spec's ValueStore)
    type_erased_vector.hpp (TypeErasedVector — the spec's ErasedBuffer)
    table.hpp       (TypedRowView, Table)
    stack_alloc.hpp (StackAlloc    — the spec's Arena)

  Machine integers (uint32_t ID/Version, size_t sizes) are modelled as Nat
  with an explicit `% U32` wherever the source performs uint32_t arithmetic
  or a static_cast to uint32_t.  std::vector<T> is modelled as List, with
  operator[] reads modelled by List.getD (out-of-bounds reads, which are
  undefined behaviour in the source, read the default; the invariants below
  prove all such reads in bounds on reachable states).  Functions that can
  throw return Except String (the thrown runtime_error message) or, for
  functions whose only failure is the allocator capacity throw, Option.
-/

/-- 2^32, the modulus of the uint32_t arithmetic in sparse_map.hpp. -/
def U32 : Nat := 4294967296

/-- Key::INVALID_IDX = std::numeric_limits of uint32_t max. -/
def INVALID_IDX : Nat := U32 - 1

/-- Key::DISABLED_VERSION = std::numeric_limits of uint32_t max. -/
def DISABLED_VERSION : Nat := U32 - 1

/-- Key::FREELIST_END_IDX = max - 1. -/
def FREELIST_END_IDX : Nat := U32 - 2

/-- Key::SPARSE_MAX_IDX = max - 2. -/
def SPARSE_MAX_IDX : Nat := U32 - 3

/-- tr::Key: a versioned handle `{ id, version }`.  The compile-time Tag
parameter has no runtime representation and is dropped. -/
structure Key where
  id : Nat := INVALID_IDX
  version : Nat := 0
deriving DecidableEq, Repr

/-- SparseMap::SparseEntry.  The C++ union of denseIdx / freelistNext is a
single field `denseIdx`, exactly as in memory (both members have the same
type uint32_t, so the union is just one number read under two names). -/
structure SparseEntry where
  denseIdx : Nat
  version : Nat
deriving DecidableEq, Repr

/-- tr::SparseMap (the spec's HandleAllocator).  Field defaults mirror the
member initializers in sparse_map.hpp. -/
structure SparseMap where
  mFreelistHead : Nat := FREELIST_END_IDX
  mDense : List Nat := []
  mSparse : List SparseEntry := []
deriving DecidableEq, Repr

/-- Models the source's `mSparse[i]` read (List.getD; in-bounds on all
reachable states, see the invariants). -/
def SparseMap.entry (m : SparseMap) (i : Nat) : SparseEntry :=
  m.mSparse.getD i ⟨0, 0⟩

/-- SparseMap::freelistNext. -/
def SparseMap.freelistNext (m : SparseMap) (freelistIdx : Nat) : Nat :=
  if freelistIdx ≠ FREELIST_END_IDX then (m.entry freelistIdx).denseIdx
  else FREELIST_END_IDX

/-- SparseMap::freelistPop.  Returns the popped index (INVALID_IDX when the
free list is empty) together with the updated map. -/
def SparseMap.freelistPop (m : SparseMap) : Nat × SparseMap :=
  let oldHead := m.mFreelistHead
  if oldHead = FREELIST_END_IDX then (INVALID_IDX, m)
  else (oldHead, { m with mFreelistHead := m.freelistNext oldHead })

/-- SparseMap::freelistPush. -/
def SparseMap.freelistPush (m : SparseMap) (sparseIdx : Nat) : SparseMap :=
  let oldHead := m.mFreelistHead
  { m with
      mFreelistHead := sparseIdx,
      mSparse := m.mSparse.set sparseIdx { m.entry sparseIdx with denseIdx := oldHead } }

/-- SparseMap::allocateSparseEntry.  The `static_cast<KeyType::ID>(mSparse.size())`
is the `% U32`. -/
def SparseMap.allocateSparseEntry (m : SparseMap) (denseIdx : Nat) : Nat × SparseMap :=
  let p := m.freelistPop
  let idx := p.1
  let m1 := p.2
  if idx ≠ INVALID_IDX then
    (idx, { m1 with mSparse := m1.mSparse.set idx { m1.entry idx with denseIdx := denseIdx } })
  else
    let idx2 := m1.mSparse.length % U32
    if idx2 = SPARSE_MAX_IDX then (INVALID_IDX, m1)
    else (idx2, { m1 with mSparse := m1.mSparse ++ [⟨denseIdx, 0⟩] })

/-- SparseMap::freeSparseEntry.  `version += 1` is uint32_t arithmetic. -/
def SparseMap.freeSparseEntry (m : SparseMap) (sparseIdx : Nat) : SparseMap :=
  let m1 := { m with
    mSparse := m.mSparse.set sparseIdx ⟨INVALID_IDX, ((m.entry sparseIdx).version + 1) % U32⟩ }
  if (m1.entry sparseIdx).version ≠ DISABLED_VERSION then m1.freelistPush sparseIdx else m1

/-- SparseMap::insert (the spec's allocate).  `none` models the capacity
throw; the `% U32` is the `static_cast<KeyType::ID>(denseIdx)`. -/
def SparseMap.insert (m : SparseMap) : Option (Key × SparseMap) :=
  let denseIdx := m.mDense.length % U32
  let p := m.allocateSparseEntry denseIdx
  let sparseIdx := p.1
  let m1 := p.2
  if sparseIdx = INVALID_IDX then none
  else
    let m2 := { m1 with mDense := m1.mDense ++ [sparseIdx] }
    some (⟨sparseIdx, (m2.entry sparseIdx).version⟩, m2)

/-- SparseMap::contains. -/
def SparseMap.contains (m : SparseMap) (key : Key) : Bool :=
  decide (key.id < m.mSparse.length) && decide ((m.entry key.id).version = key.version)

/-- SparseMap::get (the spec's resolve).  INVALID_IDX is the absence
sentinel. -/
def SparseMap.get (m : SparseMap) (key : Key) : Nat :=
  if !m.contains key then INVALID_IDX
  else (m.entry key.id).denseIdx

/-- SparseMap::erase (the spec's release).  The swap-and-pop on mDense is
written exactly as the source: std::swap of the two positions followed by
pop_back, with the back() read (`getLastD`) taken before the swap. -/
def SparseMap.erase (m : SparseMap) (key : Key) : Bool × SparseMap :=
  if !m.contains key then (false, m)
  else
    let sparseIdxToUpdate := m.mDense.getLastD 0
    let denseIdx := (m.entry key.id).denseIdx
    let m1 :=
      if denseIdx ≠ m.mDense.length - 1 then
        let oldDenseSize := m.mDense.length
        let newDense :=
          ((m.mDense.set denseIdx (m.mDense.getD (oldDenseSize - 1) 0)).set
            (oldDenseSize - 1) (m.mDense.getD denseIdx 0)).dropLast
        let ma := { m with mDense := newDense }
        { ma with
            mSparse := ma.mSparse.set sparseIdxToUpdate
              { ma.entry sparseIdxToUpdate with denseIdx := denseIdx } }
      else
        { m with mDense := m.mDense.dropLast }
    (true, m1.freeSparseEntry key.id)

/-- SparseMap::clear. -/
def SparseMap.clear (_m : SparseMap) : SparseMap :=
  { mFreelistHead := FREELIST_END_IDX, mDense := [], mSparse := [] }

/-- SparseMap::size. -/
def SparseMap.size (m : SparseMap) : Nat := m.mDense.length

/-- `std::swap(l[i], l[j])` on a vector (no-op when an index is out of
bounds; the invariants prove the indices in bounds on reachable states). -/
def listSwap (l : List α) (i j : Nat) : List α :=
  match l.get? i, l.get? j with
  | some a, some b => (l.set i b).set j a
  | _, _ => l

/-- tr::SlotMap (the spec's ValueStore). -/
structure SlotMap (V : Type) where
  mMapping : SparseMap := {}
  mStorage : List V := []
deriving DecidableEq, Repr

/-- SlotMap::insert: allocate a key, push_back the value. -/
def SlotMap.insert (s : SlotMap V) (value : V) : Option (Key × SlotMap V) :=
  match s.mMapping.insert with
  | none => none
  | some (key, mp) => some (key, { mMapping := mp, mStorage := s.mStorage ++ [value] })

/-- SlotMap::contains. -/
def SlotMap.contains (s : SlotMap V) (key : Key) : Bool :=
  s.mMapping.contains key

/-- SlotMap::get.  Returns `.ok none` for the nullptr return (absence) and
`.error` for the std::vector::at bounds throw (never reached on reachable
states). -/
def SlotMap.get (s : SlotMap V) (key : Key) : Except String (Option V) :=
  if !s.mMapping.contains key then .ok none
  else
    match s.mStorage.get? (s.mMapping.get key) with
    | some v => .ok (some v)
    | none => .error "vector::at out of range"

/-- SlotMap::remove.  The first component is the returned value or the
thrown error; the second is the map after the call (unchanged whenever the
source throws, since both throws precede every mutation of the object). -/
def SlotMap.remove (s : SlotMap V) (key : Key) : Except String V × SlotMap V :=
  if !s.mMapping.contains key then (.error "", s)
  else
    let storageIdx := s.mMapping.get key
    let mp := (s.mMapping.erase key).2
    let oldDataSize := s.mStorage.length
    let storage :=
      if oldDataSize > 1 then listSwap s.mStorage storageIdx (oldDataSize - 1)
      else s.mStorage
    match storage.get? (oldDataSize - 1) with
    | none => (.error "", s)
    | some val => (.ok val, { mMapping := mp, mStorage := storage.dropLast })

/-- SlotMap::size (the size of the backing storage). -/
def SlotMap.size (s : SlotMap V) : Nat := s.mStorage.length

/-- SlotMap::clear. -/
def SlotMap.clear (_s : SlotMap V) : SlotMap V := {}

/-- One step of a HandleAllocator trace: allocate, or release the j-th
handle returned so far.  Handles passed to release are the ones the
allocator itself issued (possibly stale or double-released); forged handles
never produced by allocate are outside the library's contract. -/
inductive SMOp where
  | allocate
  | release (j : Nat)
deriving DecidableEq, Repr

/-- Run a trace of allocate/release operations, accumulating every key that
allocate returned.  A failed (capacity-throw) allocate leaves the map
unchanged; release with an out-of-range history position releases the
default-constructed (invalid) key, which no state contains. -/
def SparseMap.runTrace (m : SparseMap) (issued : List Key) : List SMOp → SparseMap × List Key
  | [] => (m, issued)
  | SMOp.allocate :: ops =>
    match m.insert with
    | some (k, m1) => m1.runTrace (issued ++ [k]) ops
    | none => m.runTrace issued ops
  | SMOp.release j :: ops =>
    ((m.erase (issued.getD j ⟨INVALID_IDX, 0⟩)).2).runTrace issued ops

/-- Insert a list of values in order, collecting the returned handles
(`none` if any insert throws for capacity). -/
def SlotMap.insertAll (s : SlotMap V) : List V → Option (SlotMap V × List Key)
  | [] => some (s, [])
  | v :: vs =>
    match s.insert v with
    | none => none
    | some (k, s1) =>
      match s1.insertAll vs with
      | none => none
      | some (s2, ks) => some (s2, k :: ks)

/-- Remove a list of handles in order (`none` if any remove throws). -/
def SlotMap.removeAll (s : SlotMap V) : List Key → Option (SlotMap V)
  | [] => some s
  | k :: ks =>
    match s.remove k with
    | (Except.error _, _) => none
    | (Except.ok _, s1) => s1.removeAll ks

/-- tr::TypeErasedVector (the spec's ErasedBuffer).  The raw byte buffer is
modelled at element granularity: `mDataBuf = none` is the null pointer of a
never-allocated buffer, `some cells` an allocation of `capacity` cells,
where each cell is `none` (uninitialized bytes) or `some n` (the bytes of a
stored element, abstracted as a number).  Every memcpy in the source copies
whole elements, so this granularity loses nothing.  The type_id pointer
`&ty_info<T>::typeID` is a process-wide unique token per type, modelled as
a Nat. -/
structure TypeErasedVector where
  mDataBuf : Option (List (Option Nat)) := none
  mTypeID : Nat
  mElementAlignment : Nat
  mElementSize : Nat
  mElementCount : Nat := 0
  mElementCapacity : Nat := 0
deriving DecidableEq, Repr

/-- TypeErasedVector::create<T>().  The static_assert (trivially copyable,
standard layout) is compile-time only. -/
def TypeErasedVector.create (elementAlignment elementSize typeID : Nat) : TypeErasedVector :=
  { mDataBuf := none, mTypeID := typeID, mElementAlignment := elementAlignment,
    mElementSize := elementSize, mElementCount := 0, mElementCapacity := 0 }

/-- TypeErasedVector::empty. -/
def TypeErasedVector.empty (v : TypeErasedVector) : Bool := v.mElementCount = 0

/-- TypeErasedVector::size. -/
def TypeErasedVector.size (v : TypeErasedVector) : Nat := v.mElementCount

/-- TypeErasedVector::capacity. -/
def TypeErasedVector.capacity (v : TypeErasedVector) : Nat := v.mElementCapacity

/-- TypeErasedVector::clear. -/
def TypeErasedVector.clear (v : TypeErasedVector) : TypeErasedVector :=
  { v with mElementCount := 0 }

/-- TypeErasedVector::calculateCapacity. -/
def TypeErasedVector.calculateCapacity (v : TypeErasedVector) : Nat :=
  if v.mElementCapacity = 0 then 1 else v.mElementCapacity * 2

/-- TypeErasedVector::shouldGrow (`mElementCount >= mElementCapacity`). -/
def TypeErasedVector.shouldGrow (v : TypeErasedVector) : Bool :=
  v.mElementCapacity ≤ v.mElementCount

/-- TypeErasedVector::reserve.  A grow allocates a fresh buffer of newCap
cells and memcpys the first mElementCount cells over (nothing if the old
buffer is null); the remaining cells are uninitialized. -/
def TypeErasedVector.reserve (v : TypeErasedVector) (newCap : Nat) : TypeErasedVector :=
  if newCap ≤ v.mElementCapacity then v
  else
    let newBuf : List (Option Nat) :=
      match v.mDataBuf with
      | none => List.replicate newCap none
      | some buf => buf.take v.mElementCount ++ List.replicate (newCap - v.mElementCount) none
    { v with mDataBuf := some newBuf, mElementCapacity := newCap }

theorem TypeErasedVector.reserve_capacity (v : TypeErasedVector) (newCap : Nat) :
    (v.reserve newCap).mElementCapacity = max v.mElementCapacity newCap := by
  unfold TypeErasedVector.reserve
  split
  · simp; omega
  · cases v.mDataBuf <;> simp <;> omega

/-- The `while (mElementCapacity < count) { reserve(calculateCapacity()); }`
loop inside TypeErasedVector::resize. -/
def TypeErasedVector.growTo (v : TypeErasedVector) (count : Nat) : TypeErasedVector :=
  if _h : v.mElementCapacity < count then
    TypeErasedVector.growTo (v.reserve v.calculateCapacity) count
  else v
termination_by count - v.mElementCapacity
decreasing_by
  rw [TypeErasedVector.reserve_capacity]
  unfold TypeErasedVector.calculateCapacity
  split <;> omega

/-- TypeErasedVector::resize. -/
def TypeErasedVector.resize (v : TypeErasedVector) (count : Nat) : TypeErasedVector :=
  if count = v.mElementCount then v
  else if count < v.mElementCount then { v with mElementCount := count }
  else { v.growTo count with mElementCount := count }

/-- TypeErasedVector::push_back_uninit.  The returned raw pointer (into the
buffer at the new last position) is dropped; callers in table.hpp ignore
it or placement-new into it, which our cell model leaves uninitialized. -/
def TypeErasedVector.push_back_uninit (v : TypeErasedVector) : TypeErasedVector :=
  let v1 := if v.shouldGrow then v.reserve v.calculateCapacity else v
  { v1 with mElementCount := v1.mElementCount + 1 }

/-- TypeErasedVector::pop_back. -/
def TypeErasedVector.pop_back (v : TypeErasedVector) : Except String TypeErasedVector :=
  if v.empty then .error "Attempted to pop an empty container"
  else .ok { v with mElementCount := v.mElementCount - 1 }

/-- TypeErasedVector::swap_and_pop: memcpy the last element's cell over
`pos`, then shrink by one. -/
def TypeErasedVector.swap_and_pop (v : TypeErasedVector) (pos : Nat) : Except String TypeErasedVector :=
  if v.empty then .error "Attempted to pop an empty container"
  else if v.mElementCount ≤ pos then .error "Array index out of bounds"
  else
    let buf := v.mDataBuf.getD []
    let lastCell := buf.getD (v.mElementCount - 1) none
    .ok { v with mDataBuf := some (buf.set pos lastCell),
                 mElementCount := v.mElementCount - 1 }

/-- TypeErasedVector::at<T> (reading).  Returns the cell; `.error` models
the two throws. -/
def TypeErasedVector.at (v : TypeErasedVector) (typeID pos : Nat) : Except String (Option Nat) :=
  if v.mElementCount ≤ pos then .error "Array index out of bounds"
  else if typeID ≠ v.mTypeID then .error "Type safety check failed"
  else .ok ((v.mDataBuf.getD []).getD pos none)

/-- Modelled from the spec: TypeErasedVector::at_unchecked<T>, called by
TypedRowView::at in table.hpp but absent from type_erased_vector.hpp.  Per
the spec's rowView contract it indexes the row's buffer at the given
position, reinterpreting the raw bytes with no further checking. -/
def TypeErasedVector.at_unchecked (v : TypeErasedVector) (pos : Nat) : Option Nat :=
  (v.mDataBuf.getD []).getD pos none

/-- TypeErasedVector::holds_type<T> (tag identity comparison, as used by
Table::getRowView). -/
def TypeErasedVector.holds_type (v : TypeErasedVector) (typeID : Nat) : Bool :=
  v.mTypeID = typeID

/-- Copy assignment (TypeErasedVector::operator= from a const reference).
The source's first guard compares the raw buffer pointers; for two
*distinct* vector objects the pointers are equal exactly when both are
null (two live heap allocations are always distinct, and moved-from /
never-grown buffers are null), which is how the guard is modelled.  Both
throws precede every mutation, so `.error` leaves both operands as the
caller had them. -/
def TypeErasedVector.assignCopy (self other : TypeErasedVector) :
    Except String (TypeErasedVector × TypeErasedVector) :=
  if self.mDataBuf.isNone && other.mDataBuf.isNone then .ok (self, other)
  else if other.mTypeID ≠ self.mTypeID then .error "Type safety check failed"
  else
    let newBuf : List (Option Nat) :=
      match other.mDataBuf with
      | none => List.replicate other.mElementCapacity none
      | some buf => buf.take other.mElementCount ++
          List.replicate (other.mElementCapacity - other.mElementCount) none
    .ok ({ self with mDataBuf := some newBuf,
                     mElementCount := other.mElementCount,
                     mElementCapacity := other.mElementCapacity },
         other)

/-- Move assignment (TypeErasedVector::operator= from an rvalue).  Same
pointer-equality guard as copy assignment; on success the source is nulled
out. -/
def TypeErasedVector.assignMove (self other : TypeErasedVector) :
    Except String (TypeErasedVector × TypeErasedVector) :=
  if self.mDataBuf.isNone && other.mDataBuf.isNone then .ok (self, other)
  else if other.mTypeID ≠ self.mTypeID then .error "Type safety check failed"
  else
    .ok ({ self with mDataBuf := other.mDataBuf,
                     mElementCount := other.mElementCount,
                     mElementCapacity := other.mElementCapacity },
         { other with mDataBuf := none, mElementCapacity := 0, mElementCount := 0 })

/-- tr::TypedRowView<Tag, Value>: a pointer pair into a Table's column
mapping and one row's buffer. -/
structure TypedRowView where
  mMapping : SparseMap
  mStorage : TypeErasedVector
deriving DecidableEq, Repr

/-- TypedRowView::at: throws on a stale/unknown column handle, else reads
the cell at the handle's resolved position via at_unchecked. -/
def TypedRowView.at (view : TypedRowView) (key : Key) : Except String (Option Nat) :=
  if !view.mMapping.contains key then .error ""
  else .ok (view.mStorage.at_unchecked (view.mMapping.get key))

/-- tr::Table.  mRows is a SlotMap of TypeErasedVector (the std::deque
storage behaves as the modelled list for every operation used here). -/
structure Table where
  mColumnMapping : SparseMap := {}
  mRows : SlotMap TypeErasedVector := {}
deriving DecidableEq, Repr

/-- Table::createRow<T>.  Exactly as the source: a local `row` is created
and resized to the live column count, but the vector actually inserted
into mRows is a second, freshly created (empty) one; `row` is discarded.
The trailing get + assert pair only checks the pointer for null. -/
def Table.createRow (t : Table) (elementAlignment elementSize typeID : Nat) :
    Option (Key × Table) :=
  let row := (TypeErasedVector.create elementAlignment elementSize typeID).resize
    t.mColumnMapping.size
  match t.mRows.insert (TypeErasedVector.create elementAlignment elementSize typeID) with
  | none => none
  | some (key, rows) =>
    let _ := row
    some (key, { t with mRows := rows })

/-- Table::getRowView<T>.  The source dereferences mRows.get(key) without a
null check (undefined behaviour for a stale row handle, modelled as an
error); then checks holds_type. -/
def Table.getRowView (t : Table) (key : Key) (typeID : Nat) : Except String TypedRowView :=
  match t.mRows.get key with
  | .error e => .error e
  | .ok none => .error "null row pointer dereferenced"
  | .ok (some row) =>
    if !row.holds_type typeID then .error " "
    else .ok ⟨t.mColumnMapping, row⟩

/-- Table::createColumn: allocate a column key, then grow every row by one
uninitialized cell. -/
def Table.createColumn (t : Table) : Option (Key × Table) :=
  match t.mColumnMapping.insert with
  | none => none
  | some (key, mp) =>
    some (key, { mColumnMapping := mp,
                 mRows := { t.mRows with
                   mStorage := t.mRows.mStorage.map TypeErasedVector.push_back_uninit } })

/-- The `for (auto &row : mRows) { row.pop_and_swap(idx); }` loop of
Table::removeColumn.  table.hpp calls the member `pop_and_swap`, which is
the member named swap_and_pop in type_erased_vector.hpp (the spec's
swapAndPop); an exception from it propagates out of the loop. -/
def Table.popColumns (rows : List TypeErasedVector) (idx : Nat) :
    Except String (List TypeErasedVector) :=
  match rows with
  | [] => .ok []
  | r :: rest =>
    match r.swap_and_pop idx with
    | .error e => .error e
    | .ok r1 =>
      match Table.popColumns rest idx with
      | .error e => .error e
      | .ok rest1 => .ok (r1 :: rest1)

/-- Table::removeColumn: false for an unknown handle, else release the
column key and swap-remove the cell at its former position in every row. -/
def Table.removeColumn (t : Table) (key : Key) : Except String (Bool × Table) :=
  if !t.mColumnMapping.contains key then .ok (false, t)
  else
    let idx := t.mColumnMapping.get key
    let mp := (t.mColumnMapping.erase key).2
    match Table.popColumns t.mRows.mStorage idx with
    | .error e => .error e
    | .ok rows => .ok (true, { mColumnMapping := mp,
                               mRows := { t.mRows with mStorage := rows } })

/-- One block of tr::StackAlloc (the spec's Arena).  `top` is the bump
pointer and `remainder` the bytes left, as in the source; addresses are
modelled as offsets from the block's base, with the base taken to be
aligned for every requested alignment. -/
structure Block where
  top : Nat
  remainder : Nat
deriving DecidableEq, Repr

/-- StackAlloc<BlockSize>::Block::BLOCK_USABLE_SZ (sizeof(size_t) = 8). -/
def BLOCK_USABLE_SZ (blockSize : Nat) : Nat := blockSize - 8 * 2

/-- A freshly emplaced Block: top at the base of buf, remainder the full
usable size. -/
def Block.init (blockSize : Nat) : Block :=
  { top := 0, remainder := BLOCK_USABLE_SZ blockSize }

/-- tr::StackAlloc.  The BlockSize template parameter is a field. -/
structure StackAlloc where
  blockSize : Nat
  mBlocks : List Block
deriving DecidableEq, Repr

/-- StackAlloc's constructor: one block emplaced. -/
def StackAlloc.init (blockSize : Nat) : StackAlloc :=
  { blockSize := blockSize, mBlocks := [Block.init blockSize] }

/-- StackAlloc::reset: `mBlocks.clear()` — drops all blocks and does not
add a fresh one. -/
def StackAlloc.reset (s : StackAlloc) : StackAlloc :=
  { s with mBlocks := [] }

/-- std::align(alignment, size, block.top, block.remainder): round top up
to the alignment; if the padding plus the request still fits in the
remainder, commit the padded pointer and shrink the remainder by the
padding, else fail with no change. -/
def stdAlign (alignment size : Nat) (b : Block) : Option Block :=
  let aligned := (b.top + alignment - 1) / alignment * alignment
  if aligned - b.top + size ≤ b.remainder then
    some { top := aligned, remainder := b.remainder - (aligned - b.top) }
  else none

/-- StackAlloc::do_allocate.  `mBlocks.back()` on an empty block vector is
undefined behaviour (reachable immediately after reset()), modelled as
`none`.  The source recurses after emplacing a new block; the recursion is
fuelled (the source's assert `size < BLOCK_USABLE_SZ` makes one retry
sufficient).  On success, returns the allocated pointer and the allocator
with the current block bumped by `size`. -/
def StackAlloc.do_allocateAux : Nat → StackAlloc → Nat → Nat → Option (Nat × StackAlloc)
  | 0, s, size, alignment =>
    match s.mBlocks.getLast? with
    | none => none
    | some block =>
      match stdAlign alignment size block with
      | none => none
      | some b1 =>
        let ptr := b1.top
        some (ptr, { s with mBlocks :=
          s.mBlocks.dropLast ++ [{ top := b1.top + size, remainder := b1.remainder - size }] })
  | fuel + 1, s, size, alignment =>
    match s.mBlocks.getLast? with
    | none => none
    | some block =>
      match stdAlign alignment size block with
      | none =>
        StackAlloc.do_allocateAux fuel
          { s with mBlocks := s.mBlocks ++ [Block.init s.blockSize] } size alignment
      | some b1 =>
        let ptr := b1.top
        some (ptr, { s with mBlocks :=
          s.mBlocks.dropLast ++ [{ top := b1.top + size, remainder := b1.remainder - size }] })

/-- StackAlloc::do_allocate, with the recursion depth made explicit as
`fuel` (the source's recursion appends a new block and retries; its assert
`size < BLOCK_USABLE_SZ` makes one retry always sufficient). -/
def StackAlloc.do_allocate (s : StackAlloc) (size alignment fuel : Nat) :
    Option (Nat × StackAlloc) :=
  StackAlloc.do_allocateAux fuel s size alignment

/-- Scenario runner for the createRow pre-sizing check: one createColumn on
an empty Table, then one createRow; returns (live column count, cell count
of the row just created). -/
def createRowScenario : Option (Nat × Nat) :=
  match Table.createColumn {} with
  | none => none
  | some (_, t1) =>
    match t1.createRow 4 4 7 with
    | none => none
    | some (r, t2) =>
      match t2.mRows.get r with
      | .ok (some row) => some (t2.mColumnMapping.size, row.size)
      | _ => none

/-- Scenario runner for the ValueStore example: insert 10, 20, 30, remove
h20; returns (size, get h20, get h10, get h30). -/
def valueStoreScenario :
    Option (Nat × Except String (Option Nat) × Except String (Option Nat) ×
            Except String (Option Nat)) :=
  match ({} : SlotMap Nat).insert 10 with
  | none => none
  | some (h10, s1) =>
    match s1.insert 20 with
    | none => none
    | some (h20, s2) =>
      match s2.insert 30 with
      | none => none
      | some (h30, s3) =>
        let p := s3.remove h20
        match p.1 with
        | .error _ => none
        | .ok _ =>
          let s4 := p.2
          some (s4.size, s4.get h20, s4.get h10, s4.get h30)

/-- Scenario runner for createColumn/removeColumn round-trip on a table
whose row was created while a column was already live: createColumn c0,
createRow (the row that should have 1 cell), createColumn c1, then
removeColumn c1; returns what removeColumn produced, with the table
projected to every row's cell count. -/
def removeColumnScenario : Option (Except String (Bool × List Nat)) :=
  match Table.createColumn {} with
  | none => none
  | some (_, t1) =>
    match t1.createRow 4 4 7 with
    | none => none
    | some (_, t2) =>
      match t2.createColumn with
      | none => none
      | some (c1, t3) =>
        match t3.removeColumn c1 with
        | .error e => some (.error e)
        | .ok (b, t4) => some (.ok (b, t4.mRows.mStorage.map TypeErasedVector.size))

/-- Scenario runner for clear: allocate (getting k1), clear, allocate again
(getting k2); returns (contains k1, get k1, k1 = k2, dense array). -/
def clearScenario : Option (Bool × Nat × Bool × List Nat) :=
  match ({} : SparseMap).insert with
  | none => none
  | some (k1, m1) =>
    let m2 := m1.clear
    match m2.insert with
    | none => none
    | some (k2, m3) => some (m3.contains k1, m3.get k1, decide (k1 = k2), m3.mDense)

/-- A TypedRowView over an empty column mapping and a fresh int row buffer
(concrete stale-handle counterexample input for TypedRowView::at). -/
def staleRowView : TypedRowView :=
  ⟨{}, TypeErasedVector.create 4 4 7⟩

/-- Two freshly created (never grown, null-buffer) vectors bound to
distinct element types. -/
def freshIntVec : TypeErasedVector := TypeErasedVector.create 4 4 7
def freshFloatVec : TypeErasedVector := TypeErasedVector.create 4 4 8

/-- Arena scenario: construct, reset, then try one allocation. -/
def arenaResetScenario : Option (Nat × StackAlloc) :=
  ((StackAlloc.init 4096).reset).do_allocate 8 8 1

/-- The key currently denoting sparse slot `i` (its index paired with its
stored generation). -/
def keyFor (m : SparseMap) (i : Nat) : Key := ⟨i, (m.entry i).version⟩

/-- The free list of a sparse table: the chain of slot indices starting at
`head` and linked through the denseIdx union member, ending at
FREELIST_END_IDX. -/
inductive IsFreeList (sparse : List SparseEntry) : Nat → List Nat → Prop
  | nil : IsFreeList sparse FREELIST_END_IDX []
  | cons {i : Nat} {rest : List Nat} :
      i < sparse.length →
      IsFreeList sparse (sparse.getD i ⟨0, 0⟩).denseIdx rest →
      IsFreeList sparse i (i :: rest)

/-- The allocator invariant, relative to the free list `fl` and the history
`issued` of every key allocate has returned.  Structural part: the sparse
table stays below the sentinel range; dense entries point at their sparse
slots and back; every slot is live (in mDense), free (on the free list) or
permanently retired (generation at the disabled sentinel); live and free
slots have generations below the sentinel.  History part: an issued key's
generation never exceeds its slot's, matches it exactly only while the
slot is live, every live slot's current key was issued, and no key is
issued twice. -/
structure AllocInv (m : SparseMap) (fl : List Nat) (issued : List Key) : Prop where
  sparse_le : m.mSparse.length ≤ SPARSE_MAX_IDX
  flist : IsFreeList m.mSparse m.mFreelistHead fl
  fl_nodup : fl.Nodup
  fl_ver : ∀ i ∈ fl, (m.entry i).version < DISABLED_VERSION
  dense_lt : ∀ i ∈ m.mDense, i < m.mSparse.length
  dense_back : ∀ j, j < m.mDense.length → (m.entry (m.mDense.getD j 0)).denseIdx = j
  dense_ver : ∀ i ∈ m.mDense, (m.entry i).version < DISABLED_VERSION
  disj : ∀ i ∈ m.mDense, i ∉ fl
  cover : ∀ i, i < m.mSparse.length →
    (m.entry i).version = DISABLED_VERSION ∨ i ∈ m.mDense ∨ i ∈ fl
  hist_lt : ∀ k ∈ issued, k.id < m.mSparse.length
  hist_le : ∀ k ∈ issued, k.version ≤ (m.entry k.id).version
  hist_live : ∀ k ∈ issued, k.version = (m.entry k.id).version → k.id ∈ m.mDense
  hist_dense : ∀ i ∈ m.mDense, keyFor m i ∈ issued
  hist_nodup : issued.Nodup

/-- The SlotMap invariant: the mapping is well formed and the backing
storage is index-aligned with the dense array. -/
def SlotInv (s : SlotMap V) (issued : List Key) : Prop :=
  (∃ fl, AllocInv s.mMapping fl issued) ∧ s.mStorage.length = s.mMapping.mDense.length

/-- A key is dead when its slot's generation has moved past it; dead keys
never resolve again (the generation only grows and never wraps). -/
def Dead (m : SparseMap) (k : Key) : Prop :=
  k.id < m.mSparse.length ∧ k.version < (m.entry k.id).version

/-- C1: the claim states Table::createRow creates the new row's buffer
pre-sized to the current live column count, and that every row always has
as many cells as there are live columns.  The code resizes a local `row`
to the column count but then inserts a second, freshly created buffer and
discards the resized one: with one live column, the row just created has 0
cells instead of 1. -/
theorem createRow_ignores_live_column_count : createRowScenario = some (1, 0) := by
  decide

/-- C5: inserting 10, 20, 30 into an empty ValueStore and removing h20
leaves size() == 2, get(h20) absent, get(h10) == 10, get(h30) == 30. -/
theorem valueStore_example_10_20_30 :
    valueStoreScenario = some (2, .ok none, .ok (some 10), .ok (some 30)) := by
  rfl

/-- C8: the claim states createColumn() + removeColumn() on the same new
handle restores every row's cell count.  Because createRow inserted a row
with 0 cells while one column was live, that row has 1 cell when the
column count is 2, and removeColumn's swap-remove at the released column's
position 1 throws the out-of-bounds error instead of restoring counts. -/
theorem removeColumn_after_desynced_createRow_throws :
    removeColumnScenario = some (.error "Array index out of bounds") := by
  rfl

/-- C10: clear() resets the slot table including every generation counter,
so a pre-clear handle (index 0, generation 0) is again reported valid
after clear + allocate, resolves to dense position 0 — the slot the new
element occupies — and in fact equals the newly returned handle. -/
theorem clear_resets_generations : clearScenario = some (true, 0, true, [0]) := by
  decide

/-- C3 counterexample: TypedRowView::at on an unknown (never-allocated)
column handle throws instead of returning an absence indicator, refuting
the claim that every lookup-by-handle entry point returns absence and
never raises. -/
theorem rowView_at_raises_on_unknown_handle :
    staleRowView.at ⟨0, 0⟩ = .error "" := by
  rfl

/-- C4 counterexample: between two freshly created ErasedBuffers bound to
distinct element types (both empty, with null backing pointers), copy and
move assignment return successfully — the pointer-equality self-assignment
guard fires before the type check — so the claim's "including when either
or both are empty" fails: no TypeMismatch is raised. -/
theorem assign_mismatched_empty_buffers_no_error :
    freshIntVec.assignCopy freshFloatVec = .ok (freshIntVec, freshFloatVec) ∧
    freshIntVec.assignMove freshFloatVec = .ok (freshIntVec, freshFloatVec) := by
  exact ⟨rfl, rfl⟩

/-- C9 counterexample: reset() drops every block and does not emplace a
fresh one, so immediately after reset() there is no current block and
do_allocate dereferences back() of an empty vector (undefined behaviour,
modelled as failure) — refuting the claim that allocation remains
well-defined after any sequence of operations including reset(). -/
theorem allocate_after_reset_has_no_block :
    ((StackAlloc.init 4096).reset).mBlocks = [] ∧ arenaResetScenario = none := by
  exact ⟨rfl, rfl⟩

/-- C7: ValueStore::remove on a handle that does not resolve throws the
InvalidHandle error, and in that case the store is fully unmodified — the
throw is the first statement of the function, before any mutation. -/
theorem remove_invalid_handle_is_full_noop (V : Type) (s : SlotMap V) (key : Key)
    (h : s.mMapping.contains key = false) :
    (s.remove key).1 = .error "" ∧ (s.remove key).2 = s := by
  simp [SlotMap.remove, h]

/-- Witness for remove_invalid_handle_is_full_noop at the empty store and
the default-invalid key. -/
theorem remove_invalid_handle_is_full_noop_witness :
    (({} : SlotMap Nat).remove ⟨0, 0⟩).1 = .error "" ∧
    (({} : SlotMap Nat).remove ⟨0, 0⟩).2 = {} :=
  remove_invalid_handle_is_full_noop Nat {} ⟨0, 0⟩ rfl

/-- C3 amended: of the three lookup-by-handle entry points, the
HandleAllocator's resolve (SparseMap::get) and the ValueStore's get return
absence indicators (INVALID_IDX, nullptr) and never raise on a
stale/unknown handle, but the Table row view's at(columnHandle) raises an
error for a stale/unknown column handle — it returns a reference and has
no absence channel. -/
theorem stale_handle_lookup_behaviour :
    (∀ (m : SparseMap) (k : Key), m.contains k = false → m.get k = INVALID_IDX) ∧
    (∀ (V : Type) (s : SlotMap V) (k : Key),
      s.mMapping.contains k = false → s.get k = .ok none) ∧
    (∀ (view : TypedRowView) (k : Key),
      view.mMapping.contains k = false → view.at k = .error "") := by
  refine ⟨?_, ?_, ?_⟩
  · intro m k h; simp [SparseMap.get, h]
  · intro V s k h; simp [SlotMap.get, h]
  · intro view k h; simp [TypedRowView.at, h]

/-- Witness for stale_handle_lookup_behaviour at empty components and
never-allocated keys. -/
theorem stale_handle_lookup_behaviour_witness :
    ({} : SparseMap).get ⟨0, 0⟩ = INVALID_IDX ∧
    ({} : SlotMap Nat).get ⟨0, 0⟩ = .ok none ∧
    staleRowView.at ⟨1, 0⟩ = .error "" :=
  ⟨stale_handle_lookup_behaviour.1 {} ⟨0, 0⟩ rfl,
   stale_handle_lookup_behaviour.2.1 Nat {} ⟨0, 0⟩ rfl,
   stale_handle_lookup_behaviour.2.2 staleRowView ⟨1, 0⟩ rfl⟩

/-- C4 amended: assignment between ErasedBuffers bound to different element
types fails with TypeMismatch — leaving both operands untouched, as the
throw precedes every mutation — whenever at least one of the two backing
pointers is non-null; when both are null (e.g. both buffers freshly
created and never grown) the pointer-equality self-assignment guard
returns early instead, with no error and no modification. -/
theorem assign_mismatched_types_fails (a b : TypeErasedVector)
    (hty : b.mTypeID ≠ a.mTypeID) (hbuf : a.mDataBuf ≠ none ∨ b.mDataBuf ≠ none) :
    a.assignCopy b = .error "Type safety check failed" ∧
    a.assignMove b = .error "Type safety check failed" := by
  have hg : (a.mDataBuf.isNone && b.mDataBuf.isNone) = false := by
    rcases hbuf with h | h <;> cases ha : a.mDataBuf <;> cases hb : b.mDataBuf <;> simp_all
  constructor <;>
    simp [TypeErasedVector.assignCopy, TypeErasedVector.assignMove, hg, hty]

/-- Witness for assign_mismatched_types_fails: a grown int buffer and a
fresh float buffer. -/
theorem assign_mismatched_types_fails_witness :
    (freshIntVec.push_back_uninit).assignCopy freshFloatVec =
      .error "Type safety check failed" ∧
    (freshIntVec.push_back_uninit).assignMove freshFloatVec =
      .error "Type safety check failed" :=
  assign_mismatched_types_fails _ _ (by decide) (Or.inl (by decide))

/-- C9 amended: whenever the arena still has at least one block (true from
construction up to any reset()), do_allocate is well-defined: it
bump-allocates at an address honoring the requested alignment, either in
the current block or — when the request does not fit there — in a single
freshly appended block; only immediately after reset(), when no block
exists, is the allocation path undefined. -/
theorem do_allocate_succeeds_with_block (s : StackAlloc) (size alignment : Nat)
    (hne : s.mBlocks ≠ []) (hal : 0 < alignment)
    (hsz : size < BLOCK_USABLE_SZ s.blockSize) :
    ∃ ptr s2, s.do_allocate size alignment 1 = some (ptr, s2) ∧
      alignment ∣ ptr ∧
      (s2.mBlocks.length = s.mBlocks.length ∨
       s2.mBlocks.length = s.mBlocks.length + 1) := by
  obtain ⟨block, hlast⟩ : ∃ b, s.mBlocks.getLast? = some b := by
    cases h : s.mBlocks.getLast? with
    | none => exact absurd (List.getLast?_eq_none_iff.mp h) hne
    | some b => exact ⟨b, rfl⟩
  have hlen : s.mBlocks.length ≠ 0 := fun h => hne (List.eq_nil_of_length_eq_zero h)
  have hinit : stdAlign alignment size (Block.init s.blockSize) =
      some { top := 0, remainder := BLOCK_USABLE_SZ s.blockSize } := by
    have h1 : (alignment - 1) / alignment = 0 := Nat.div_eq_of_lt (by omega)
    simp [stdAlign, Block.init, h1, Nat.le_of_lt hsz]
  unfold StackAlloc.do_allocate
  unfold StackAlloc.do_allocateAux
  rw [hlast]
  cases halign : stdAlign alignment size block with
  | some b1 =>
    simp only [halign]
    refine ⟨b1.top, _, rfl, ?_, ?_⟩
    · unfold stdAlign at halign
      by_cases hfit : (block.top + alignment - 1) / alignment * alignment -
          block.top + size ≤ block.remainder
      · simp only [if_pos hfit] at halign
        have hb := Option.some.inj halign
        rw [← hb]
        exact dvd_mul_left _ _
      · simp [if_neg hfit] at halign
    · left
      simp [List.length_dropLast]
      omega
  | none =>
    simp only [halign]
    unfold StackAlloc.do_allocateAux
    have hcat : (s.mBlocks ++ [Block.init s.blockSize]).getLast? =
        some (Block.init s.blockSize) := by simp
    simp only [hcat, hinit]
    refine ⟨_, _, rfl, ?_, ?_⟩
    · simp
    · right
      simp [List.length_dropLast]

/-- Witness for do_allocate_succeeds_with_block at a freshly constructed
4096-byte-block arena and an 8-byte, 8-aligned request. -/
theorem do_allocate_succeeds_with_block_witness :
    ∃ ptr s2, (StackAlloc.init 4096).do_allocate 8 8 1 = some (ptr, s2) ∧
      8 ∣ ptr ∧
      (s2.mBlocks.length = (StackAlloc.init 4096).mBlocks.length ∨
       s2.mBlocks.length = (StackAlloc.init 4096).mBlocks.length + 1) :=
  do_allocate_succeeds_with_block (StackAlloc.init 4096) 8 8 (by decide)
    (by decide) (by decide)

theorem getD_idx_eq (l : List α) (i : Nat) (d : α) : l.getD i d = (l[i]?).getD d :=
  List.getD_eq_getElem?_getD l i d

theorem getD_set_self {l : List α} {i : Nat} (h : i < l.length) (a d : α) :
    (l.set i a).getD i d = a := by
  simp [getD_idx_eq, List.getElem?_set_self h]

theorem getD_set_ne {l : List α} {i j : Nat} (h : i ≠ j) (a d : α) :
    (l.set i a).getD j d = l.getD j d := by
  simp [getD_idx_eq, List.getElem?_set_ne h]

theorem getD_append_left {l : List α} {i : Nat} (h : i < l.length) (l2 : List α) (d : α) :
    (l ++ l2).getD i d = l.getD i d := by
  simp [getD_idx_eq, List.getElem?_append_left h]

theorem getD_concat_length (l : List α) (a d : α) : (l ++ [a]).getD l.length d = a := by
  simp [getD_idx_eq, List.getElem?_concat_length]

theorem getD_mem {l : List α} {i : Nat} (h : i < l.length) (d : α) : l.getD i d ∈ l := by
  rw [getD_idx_eq, List.getElem?_eq_getElem h]
  exact List.getElem_mem h

theorem getD_oob {l : List α} {i : Nat} (h : l.length ≤ i) (d : α) : l.getD i d = d := by
  simp [getD_idx_eq, List.getElem?_eq_none h]

theorem getD_dropLast {l : List α} {i : Nat} (h : i < l.length - 1) (d : α) :
    l.dropLast.getD i d = l.getD i d := by
  simp [getD_idx_eq, List.getElem?_dropLast, if_pos h]

theorem getLastD_eq_getD (l : List α) (d : α) : l.getLastD d = l.getD (l.length - 1) d := by
  rw [List.getLastD_eq_getLast?, List.getLast?_eq_getElem?, getD_idx_eq]

theorem nodup_lt_length_le {l : List Nat} {n : Nat} (hn : l.Nodup)
    (hb : ∀ i ∈ l, i < n) : l.length ≤ n := by
  calc l.length = l.toFinset.card := (List.toFinset_card_of_nodup hn).symm
    _ ≤ (Finset.range n).card := by
        apply Finset.card_le_card
        intro x hx
        rw [List.mem_toFinset] at hx
        simpa using hb x hx
    _ = n := Finset.card_range n

theorem isFreeList_mem_lt {sparse : List SparseEntry} {head : Nat} {fl : List Nat}
    (h : IsFreeList sparse head fl) : ∀ i ∈ fl, i < sparse.length := by
  induction h with
  | nil => simp
  | cons hlt _ ih =>
    intro j hj
    rcases List.mem_cons.mp hj with rfl | hj
    · exact hlt
    · exact ih j hj

theorem isFreeList_of_head_ne {sparse : List SparseEntry} {head : Nat} {fl : List Nat}
    (h : IsFreeList sparse head fl) (hne : head ≠ FREELIST_END_IDX) :
    ∃ rest, fl = head :: rest ∧ head < sparse.length ∧
      IsFreeList sparse (sparse.getD head ⟨0, 0⟩).denseIdx rest := by
  cases h with
  | nil => exact absurd rfl hne
  | cons hlt hnext => exact ⟨_, rfl, hlt, hnext⟩

theorem isFreeList_of_head_end {sparse : List SparseEntry} {fl : List Nat}
    (h : IsFreeList sparse FREELIST_END_IDX fl)
    (hle : sparse.length ≤ SPARSE_MAX_IDX) : fl = [] := by
  cases h with
  | nil => rfl
  | cons hlt _ =>
    have hd : SPARSE_MAX_IDX < FREELIST_END_IDX := by decide
    omega

theorem isFreeList_set_notmem {sparse : List SparseEntry} {head : Nat} {fl : List Nat}
    (h : IsFreeList sparse head fl) (i : Nat) (e : SparseEntry) (hnm : i ∉ fl) :
    IsFreeList (sparse.set i e) head fl := by
  induction h with
  | nil => exact .nil
  | @cons j rest hlt hnext ih =>
    have hij : i ≠ j := fun h => hnm (h ▸ List.mem_cons_self j rest)
    refine IsFreeList.cons ?_ ?_
    · simpa using hlt
    · rw [getD_set_ne hij]
      exact ih (fun hm => hnm (List.mem_cons_of_mem j hm))

theorem isFreeList_append {sparse l2 : List SparseEntry} {head : Nat} {fl : List Nat}
    (h : IsFreeList sparse head fl) : IsFreeList (sparse ++ l2) head fl := by
  induction h with
  | nil => exact .nil
  | @cons j rest hlt hnext ih =>
    refine IsFreeList.cons ?_ ?_
    · simp; omega
    · rw [getD_append_left hlt]
      exact ih

theorem isFreeList_push {sparse : List SparseEntry} {head : Nat} {fl : List Nat}
    (h : IsFreeList sparse head fl) (i : Nat) (hlt : i < sparse.length)
    (hnm : i ∉ fl) (v : Nat) :
    IsFreeList (sparse.set i ⟨head, v⟩) i (i :: fl) := by
  refine IsFreeList.cons (by simpa using hlt) ?_
  rw [getD_set_self hlt]
  exact isFreeList_set_notmem h i _ hnm

theorem AllocInv.dense_nodup {m : SparseMap} {fl : List Nat} {issued : List Key}
    (inv : AllocInv m fl issued) : m.mDense.Nodup := by
  rw [List.nodup_iff_injective_getElem]
  intro a b hab
  dsimp only at hab
  have ha := inv.dense_back a.1 a.2
  have hb := inv.dense_back b.1 b.2
  have hga : m.mDense.getD (↑a) 0 = m.mDense[(↑a : Nat)] := by
    rw [getD_idx_eq, List.getElem?_eq_getElem a.2]; rfl
  have hgb : m.mDense.getD (↑b) 0 = m.mDense[(↑b : Nat)] := by
    rw [getD_idx_eq, List.getElem?_eq_getElem b.2]; rfl
  rw [hga, hab, ← hgb] at ha
  rw [hb] at ha
  exact Fin.ext ha.symm

theorem AllocInv.dense_len_le {m : SparseMap} {fl : List Nat} {issued : List Key}
    (inv : AllocInv m fl issued) : m.mDense.length ≤ m.mSparse.length :=
  nodup_lt_length_le inv.dense_nodup inv.dense_lt

theorem AllocInv.dense_pos {m : SparseMap} {fl : List Nat} {issued : List Key}
    (inv : AllocInv m fl issued) {i : Nat} (hi : i ∈ m.mDense) :
    (m.entry i).denseIdx < m.mDense.length ∧
      m.mDense.getD (m.entry i).denseIdx 0 = i := by
  obtain ⟨j, hj, hval⟩ := List.mem_iff_getElem.mp hi
  have hgd : m.mDense.getD j 0 = i := by
    rw [getD_idx_eq, List.getElem?_eq_getElem hj, hval]; rfl
  have := inv.dense_back j hj
  rw [hgd] at this
  rw [this]
  exact ⟨hj, hgd⟩

theorem contains_iff {m : SparseMap} {k : Key} :
    m.contains k = true ↔ k.id < m.mSparse.length ∧ (m.entry k.id).version = k.version := by
  simp [SparseMap.contains]

theorem contains_false_iff {m : SparseMap} {k : Key} :
    m.contains k = false ↔ m.mSparse.length ≤ k.id ∨ (m.entry k.id).version ≠ k.version := by
  rw [← Bool.not_eq_true, contains_iff]
  push_neg
  constructor
  · intro h
    by_cases hlt : k.id < m.mSparse.length
    · exact Or.inr (h hlt)
    · exact Or.inl (Nat.le_of_not_lt hlt)
  · intro h hlt
    rcases h with h | h
    · omega
    · exact h

theorem insert_shape_freelist {m : SparseMap} {head : Nat}
    (hh : m.mFreelistHead = head) (hne : head ≠ FREELIST_END_IDX)
    (hlt : head < m.mSparse.length) (hsp : m.mSparse.length ≤ SPARSE_MAX_IDX) :
    m.insert = some (⟨head, (m.entry head).version⟩,
      { mFreelistHead := (m.entry head).denseIdx,
        mDense := m.mDense ++ [head],
        mSparse := m.mSparse.set head
          ⟨m.mDense.length % U32, (m.entry head).version⟩ }) := by
  have hni : head ≠ INVALID_IDX := by
    have : SPARSE_MAX_IDX < INVALID_IDX := by decide
    omega
  simp only [SparseMap.insert, SparseMap.allocateSparseEntry, SparseMap.freelistPop,
    SparseMap.freelistNext, SparseMap.entry, hh, hne, hni, ne_eq, not_false_eq_true,
    if_true, if_false, ite_true, ite_false, not_true, not_false_iff]
  rw [getD_set_self hlt]

theorem insert_shape_fresh {m : SparseMap}
    (hh : m.mFreelistHead = FREELIST_END_IDX)
    (hlen : m.mSparse.length < SPARSE_MAX_IDX) (hdlen : m.mDense.length < U32) :
    m.insert = some (⟨m.mSparse.length, 0⟩,
      { mFreelistHead := FREELIST_END_IDX,
        mDense := m.mDense ++ [m.mSparse.length],
        mSparse := m.mSparse ++ [⟨m.mDense.length, 0⟩] }) := by
  have hu : m.mSparse.length % U32 = m.mSparse.length := by
    apply Nat.mod_eq_of_lt
    have : SPARSE_MAX_IDX < U32 := by decide
    omega
  have hd : m.mDense.length % U32 = m.mDense.length := Nat.mod_eq_of_lt hdlen
  have hmax : m.mSparse.length ≠ SPARSE_MAX_IDX := Nat.ne_of_lt hlen
  have hinv : m.mSparse.length ≠ INVALID_IDX := by
    have : SPARSE_MAX_IDX < INVALID_IDX := by decide
    omega
  simp only [SparseMap.insert, SparseMap.allocateSparseEntry, SparseMap.freelistPop,
    SparseMap.entry, hh, hu, hd, hmax, hinv, ite_true, ite_false, if_true, if_false,
    ne_eq, not_true, not_false_iff, not_true_eq_false, not_false_eq_true,
    if_neg, decide_True, decide_False]
  rw [getD_concat_length]

theorem freeSparseEntry_shape_recycle {m : SparseMap} {i : Nat}
    (hlt : i < m.mSparse.length)
    (hnd : (m.entry i).version + 1 ≠ DISABLED_VERSION)
    (hver : (m.entry i).version < DISABLED_VERSION) :
    m.freeSparseEntry i =
      { mFreelistHead := i, mDense := m.mDense,
        mSparse := m.mSparse.set i ⟨m.mFreelistHead, (m.entry i).version + 1⟩ } := by
  have hmod : ((m.entry i).version + 1) % U32 = (m.entry i).version + 1 := by
    apply Nat.mod_eq_of_lt
    have : DISABLED_VERSION < U32 := by decide
    omega
  simp only [SparseMap.entry] at hmod hnd
  simp only [SparseMap.freeSparseEntry, SparseMap.freelistPush, SparseMap.entry]
  rw [getD_set_self hlt]
  simp only [List.getD_eq_getElem?_getD] at hmod hnd
  simp [hmod, hnd, List.set_set]

theorem freeSparseEntry_shape_retire {m : SparseMap} {i : Nat}
    (hlt : i < m.mSparse.length)
    (hnd : (m.entry i).version + 1 = DISABLED_VERSION) :
    m.freeSparseEntry i =
      { m with mSparse := m.mSparse.set i ⟨INVALID_IDX, DISABLED_VERSION⟩ } := by
  have hmod : ((m.entry i).version + 1) % U32 = (m.entry i).version + 1 := by
    apply Nat.mod_eq_of_lt
    have : DISABLED_VERSION < U32 := by decide
    omega
  simp only [SparseMap.entry] at hmod hnd
  simp only [SparseMap.freeSparseEntry, SparseMap.entry]
  rw [getD_set_self hlt]
  simp only [List.getD_eq_getElem?_getD] at hmod hnd
  have hdm : DISABLED_VERSION % U32 = DISABLED_VERSION := by decide
  simp [hmod, hnd, hdm]

theorem erase_shape_swap {m : SparseMap} {k : Key} (hc : m.contains k = true)
    (hpos : (m.entry k.id).denseIdx ≠ m.mDense.length - 1) :
    m.erase k = (true,
      ({ m with
          mDense := ((m.mDense.set (m.entry k.id).denseIdx
              (m.mDense.getD (m.mDense.length - 1) 0)).set
              (m.mDense.length - 1) (m.mDense.getD (m.entry k.id).denseIdx 0)).dropLast,
          mSparse := m.mSparse.set (m.mDense.getLastD 0)
            { m.entry (m.mDense.getLastD 0) with
                denseIdx := (m.entry k.id).denseIdx } }).freeSparseEntry k.id) := by
  have hpos2 : (m.mSparse.getD k.id ⟨0, 0⟩).denseIdx ≠ m.mDense.length - 1 := by
    simpa [SparseMap.entry] using hpos
  simp only [SparseMap.erase, hc, Bool.not_true, if_false, ite_false, Bool.false_eq_true,
    SparseMap.entry, ite_true, if_true, not_false_eq_true]
  rw [if_pos hpos2]

theorem erase_shape_last {m : SparseMap} {k : Key} (hc : m.contains k = true)
    (hpos : (m.entry k.id).denseIdx = m.mDense.length - 1) :
    m.erase k = (true, ({ m with mDense := m.mDense.dropLast }).freeSparseEntry k.id) := by
  have hpos2 : (m.mSparse.getD k.id ⟨0, 0⟩).denseIdx = m.mDense.length - 1 := by
    simpa [SparseMap.entry] using hpos
  simp only [SparseMap.erase, hc, Bool.not_true, if_false, ite_false, Bool.false_eq_true,
    SparseMap.entry, hpos2, ite_true, if_true, not_true, not_true_eq_false, ite_self]
  have hx : ¬(m.mDense.length - 1 ≠ m.mDense.length - 1) := by simp
  rw [if_neg hx]

theorem erase_shape_fail {m : SparseMap} {k : Key} (hc : m.contains k = false) :
    m.erase k = (false, m) := by
  simp [SparseMap.erase, hc]

theorem insert_none_of_full {m : SparseMap} (hh : m.mFreelistHead = FREELIST_END_IDX)
    (hfull : m.mSparse.length % U32 = SPARSE_MAX_IDX) : m.insert = none := by
  simp [SparseMap.insert, SparseMap.allocateSparseEntry, SparseMap.freelistPop, hh, hfull]

theorem alloc_insert_spec {m : SparseMap} {fl : List Nat} {issued : List Key}
    (inv : AllocInv m fl issued) {k : Key} {m2 : SparseMap}
    (h : m.insert = some (k, m2)) :
    ∃ fl2, AllocInv m2 fl2 (issued ++ [k]) ∧
      m2.mDense = m.mDense ++ [k.id] ∧
      m.mSparse.length ≤ m2.mSparse.length ∧
      (∀ i, (m2.entry i).version = (m.entry i).version) ∧
      k.version < DISABLED_VERSION ∧
      m2.contains k = true := by
  have hd0 : (0 : Nat) < DISABLED_VERSION := by decide
  have hMU : SPARSE_MAX_IDX < U32 := by decide
  have hdlen : m.mDense.length < U32 :=
    lt_of_le_of_lt (le_trans inv.dense_len_le inv.sparse_le) hMU
  by_cases hh : m.mFreelistHead = FREELIST_END_IDX
  · -- fresh-slot branch: free list is empty, a new sparse slot is appended
    have hfl : fl = [] := isFreeList_of_head_end (hh ▸ inv.flist) inv.sparse_le
    have hlen : m.mSparse.length < SPARSE_MAX_IDX := by
      rcases Nat.lt_or_ge m.mSparse.length SPARSE_MAX_IDX with hlt | hge
      · exact hlt
      · exfalso
        have heq : m.mSparse.length = SPARSE_MAX_IDX := le_antisymm inv.sparse_le hge
        have := insert_none_of_full hh (by rw [heq]; exact Nat.mod_eq_of_lt hMU)
        rw [this] at h
        exact Option.noConfusion h
    rw [insert_shape_fresh hh hlen hdlen] at h
    have hk : k = ⟨m.mSparse.length, 0⟩ := by
      have := Option.some.inj h
      exact (Prod.mk.injEq _ _ _ _ ▸ this).1.symm
    have hm2 : m2 =
        { mFreelistHead := FREELIST_END_IDX,
          mDense := m.mDense ++ [m.mSparse.length],
          mSparse := m.mSparse ++ [⟨m.mDense.length, 0⟩] } := by
      have := Option.some.inj h
      exact (Prod.mk.injEq _ _ _ _ ▸ this).2.symm
    subst hk hm2
    set L := m.mSparse.length with hL
    set D := m.mDense.length with hD
    have e_lt : ∀ i, i < L → (SparseMap.entry ⟨FREELIST_END_IDX, m.mDense ++ [L],
        m.mSparse ++ [⟨D, 0⟩]⟩ i) = m.entry i := by
      intro i hi
      simp only [SparseMap.entry]
      exact getD_append_left hi _ _
    have e_L : (SparseMap.entry ⟨FREELIST_END_IDX, m.mDense ++ [L],
        m.mSparse ++ [⟨D, 0⟩]⟩ L) = ⟨D, 0⟩ := by
      simp only [SparseMap.entry]
      exact getD_concat_length _ _ _
    have e_ver : ∀ i, (SparseMap.entry ⟨FREELIST_END_IDX, m.mDense ++ [L],
        m.mSparse ++ [⟨D, 0⟩]⟩ i).version = (m.entry i).version := by
      intro i
      rcases Nat.lt_trichotomy i L with hi | hi | hi
      · rw [e_lt i hi]
      · rw [hi, e_L]
        have : m.entry L = ⟨0, 0⟩ := by
          simp only [SparseMap.entry]
          exact getD_oob (Nat.le_of_eq hL.symm) _
        rw [this]
      · have h1 : (SparseMap.entry ⟨FREELIST_END_IDX, m.mDense ++ [L],
            m.mSparse ++ [⟨D, 0⟩]⟩ i) = ⟨0, 0⟩ := by
          simp only [SparseMap.entry]
          apply getD_oob
          simp only [List.length_append, List.length_singleton]
          omega
        have h2 : m.entry i = ⟨0, 0⟩ := by
          simp only [SparseMap.entry]
          exact getD_oob (Nat.le_of_lt hi) _
        rw [h1, h2]
    have hcont : SparseMap.contains
        ⟨FREELIST_END_IDX, m.mDense ++ [L], m.mSparse ++ [⟨D, 0⟩]⟩ ⟨L, 0⟩ = true := by
      apply contains_iff.mpr
      constructor
      · simp only [List.length_append, List.length_singleton]
        omega
      · rw [show (⟨L, 0⟩ : Key).id = L from rfl, e_L]
    refine ⟨[], ?_, by simp, by simp, e_ver, hd0, hcont⟩
    refine
      { sparse_le := ?_, flist := ?_, fl_nodup := ?_, fl_ver := ?_,
        dense_lt := ?_, dense_back := ?_, dense_ver := ?_, disj := ?_, cover := ?_,
        hist_lt := ?_, hist_le := ?_, hist_live := ?_, hist_dense := ?_,
        hist_nodup := ?_ }
    · simp only [List.length_append, List.length_singleton]; omega
    · exact IsFreeList.nil
    · exact List.nodup_nil
    · intro i hi; exact absurd hi (List.not_mem_nil i)
    ·
      intro i hi
      simp only [List.length_append, List.length_singleton]
      rcases List.mem_append.mp hi with hi | hi
      · have := inv.dense_lt i hi; omega
      · rw [List.mem_singleton.mp hi]; omega
    ·
      intro j hj
      simp only [List.length_append, List.length_singleton] at hj
      rcases Nat.lt_or_ge j D with hjD | hjD
      · rw [show (m.mDense ++ [L]).getD j 0 = m.mDense.getD j 0 from getD_append_left hjD _ _]
        have hmem : m.mDense.getD j 0 ∈ m.mDense := getD_mem hjD 0
        rw [e_lt _ (inv.dense_lt _ hmem)]
        exact inv.dense_back j hjD
      · have hjeq : j = D := by omega
        subst hjeq
        rw [show (m.mDense ++ [L]).getD D 0 = L from getD_concat_length _ _ _, e_L]
    ·
      intro i hi
      rcases List.mem_append.mp hi with hi | hi
      · rw [e_lt _ (inv.dense_lt _ hi)]
        exact inv.dense_ver i hi
      · rw [List.mem_singleton.mp hi, e_L]
        exact hd0
    · intro i _ hf; exact absurd hf (List.not_mem_nil i)
    ·
      intro i hi
      simp only [List.length_append, List.length_singleton] at hi
      rcases Nat.lt_or_ge i L with hiL | hiL
      · rcases inv.cover i hiL with hc | hc | hc
        · left; rw [e_ver]; exact hc
        · right; left; exact List.mem_append_left _ hc
        · rw [hfl] at hc; exact absurd hc (List.not_mem_nil i)
      · have : i = L := by omega
        subst this
        right; left
        exact List.mem_append_right _ (List.mem_singleton_self _)
    ·
      intro k2 hk2
      simp only [List.length_append, List.length_singleton]
      rcases List.mem_append.mp hk2 with hk2 | hk2
      · have := inv.hist_lt k2 hk2; omega
      · rw [List.mem_singleton.mp hk2]
        dsimp only
        omega
    ·
      intro k2 hk2
      rcases List.mem_append.mp hk2 with hk2 | hk2
      · rw [e_ver]; exact inv.hist_le k2 hk2
      · rw [List.mem_singleton.mp hk2]
        dsimp only
        rw [e_L]
    ·
      intro k2 hk2 hv
      rcases List.mem_append.mp hk2 with hk2 | hk2
      · rw [e_ver] at hv
        exact List.mem_append_left _ (inv.hist_live k2 hk2 hv)
      · rw [List.mem_singleton.mp hk2]
        exact List.mem_append_right _ (List.mem_singleton_self _)
    ·
      intro i hi
      rcases List.mem_append.mp hi with hi | hi
      · have : keyFor ⟨FREELIST_END_IDX, m.mDense ++ [L], m.mSparse ++ [⟨D, 0⟩]⟩ i =
            keyFor m i := by
          simp only [keyFor, e_ver]
        rw [this]
        exact List.mem_append_left _ (inv.hist_dense i hi)
      · rw [List.mem_singleton.mp hi]
        have : keyFor ⟨FREELIST_END_IDX, m.mDense ++ [L], m.mSparse ++ [⟨D, 0⟩]⟩ L =
            ⟨L, 0⟩ := by
          simp only [keyFor, e_L]
        rw [this]
        exact List.mem_append_right _ (List.mem_singleton_self _)
    ·
      rw [List.nodup_append]
      refine ⟨inv.hist_nodup, List.nodup_singleton _, ?_⟩
      intro k2 hk2 hk2s
      rw [List.mem_singleton.mp hk2s] at hk2
      have := inv.hist_lt _ hk2
      simp only at this
      omega
  · -- free-list reuse branch
    obtain ⟨rest, hfl, hhlt, hnext⟩ := isFreeList_of_head_ne inv.flist hh
    have hheadfl : m.mFreelistHead ∈ fl := by rw [hfl]; exact List.mem_cons_self _ _
    have hheadrest : m.mFreelistHead ∉ rest := by
      have := inv.fl_nodup
      rw [hfl, List.nodup_cons] at this
      exact this.1
    have hheadnd : m.mFreelistHead ∉ m.mDense := fun hd => inv.disj _ hd hheadfl
    have hver_head : (m.entry m.mFreelistHead).version < DISABLED_VERSION :=
      inv.fl_ver _ hheadfl
    rw [insert_shape_freelist rfl hh hhlt inv.sparse_le] at h
    have hk : k = ⟨m.mFreelistHead, (m.entry m.mFreelistHead).version⟩ := by
      have := Option.some.inj h
      exact (Prod.mk.injEq _ _ _ _ ▸ this).1.symm
    have hm2 : m2 =
        { mFreelistHead := (m.entry m.mFreelistHead).denseIdx,
          mDense := m.mDense ++ [m.mFreelistHead],
          mSparse := m.mSparse.set m.mFreelistHead
            ⟨m.mDense.length % U32, (m.entry m.mFreelistHead).version⟩ } := by
      have := Option.some.inj h
      exact (Prod.mk.injEq _ _ _ _ ▸ this).2.symm
    subst hk hm2
    set H := m.mFreelistHead with hH
    set D := m.mDense.length with hD
    have hDmod : D % U32 = D := Nat.mod_eq_of_lt hdlen
    set M2 : SparseMap :=
      { mFreelistHead := (m.entry H).denseIdx,
        mDense := m.mDense ++ [H],
        mSparse := m.mSparse.set H ⟨D % U32, (m.entry H).version⟩ } with hM2
    have e_ne : ∀ i, i ≠ H → M2.entry i = m.entry i := by
      intro i hi
      simp only [hM2, SparseMap.entry]
      exact getD_set_ne (fun he => hi he.symm) _ _
    have e_H : M2.entry H = ⟨D, (m.entry H).version⟩ := by
      simp only [hM2, SparseMap.entry]
      rw [getD_set_self hhlt, hDmod]
    have e_ver : ∀ i, (M2.entry i).version = (m.entry i).version := by
      intro i
      by_cases hi : i = H
      · subst hi; rw [e_H]
      · rw [e_ne i hi]
    have hcont : M2.contains ⟨H, (m.entry H).version⟩ = true := by
      apply contains_iff.mpr
      constructor
      · simp only [hM2, List.length_set]
        exact hhlt
      · rw [show (⟨H, (m.entry H).version⟩ : Key).id = H from rfl, e_H]
    refine ⟨rest, ?_, by simp, by simp, e_ver, hver_head, hcont⟩
    refine
      { sparse_le := ?_, flist := ?_, fl_nodup := ?_, fl_ver := ?_,
        dense_lt := ?_, dense_back := ?_, dense_ver := ?_, disj := ?_, cover := ?_,
        hist_lt := ?_, hist_le := ?_, hist_live := ?_, hist_dense := ?_,
        hist_nodup := ?_ }
    · simpa using inv.sparse_le
    ·
      exact isFreeList_set_notmem hnext H _ hheadrest
    ·
      have := inv.fl_nodup
      rw [hfl, List.nodup_cons] at this
      exact this.2
    ·
      intro i hi
      have hiH : i ≠ H := fun he => hheadrest (he ▸ hi)
      rw [e_ne i hiH]
      exact inv.fl_ver i (hfl ▸ List.mem_cons_of_mem _ hi)
    ·
      intro i hi
      simp only [hM2, List.length_set]
      rcases List.mem_append.mp hi with hi | hi
      · exact inv.dense_lt i hi
      · rw [List.mem_singleton.mp hi]; exact hhlt
    ·
      intro j hj
      simp only [List.length_append, List.length_singleton] at hj
      rcases Nat.lt_or_ge j D with hjD | hjD
      · rw [show (m.mDense ++ [H]).getD j 0 = m.mDense.getD j 0 from getD_append_left hjD _ _]
        have hmem : m.mDense.getD j 0 ∈ m.mDense := getD_mem hjD 0
        have hne : m.mDense.getD j 0 ≠ H := fun he => hheadnd (he ▸ hmem)
        rw [e_ne _ hne]
        exact inv.dense_back j hjD
      · have hjeq : j = D := by omega
        subst hjeq
        rw [show (m.mDense ++ [H]).getD D 0 = H from getD_concat_length _ _ _, e_H]
    ·
      intro i hi
      rcases List.mem_append.mp hi with hi | hi
      · have hne : i ≠ H := fun he => hheadnd (he ▸ hi)
        rw [e_ne _ hne]
        exact inv.dense_ver i hi
      · rw [List.mem_singleton.mp hi, e_H]
        exact hver_head
    ·
      intro i hi hf
      rcases List.mem_append.mp hi with hi | hi
      · exact inv.disj i hi (hfl ▸ List.mem_cons_of_mem _ hf)
      · exact hheadrest (List.mem_singleton.mp hi ▸ hf)
    ·
      intro i hi
      simp only [hM2, List.length_set] at hi
      by_cases hiH : i = H
      · subst hiH
        right; left
        exact List.mem_append_right _ (List.mem_singleton_self _)
      · rcases inv.cover i hi with hc | hc | hc
        · left; rw [e_ne i hiH]; exact hc
        · right; left; exact List.mem_append_left _ hc
        · rw [hfl] at hc
          rcases List.mem_cons.mp hc with hc | hc
          · exact absurd hc hiH
          · right; right; exact hc
    ·
      intro k2 hk2
      simp only [hM2, List.length_set]
      rcases List.mem_append.mp hk2 with hk2 | hk2
      · exact inv.hist_lt k2 hk2
      · rw [List.mem_singleton.mp hk2]; exact hhlt
    ·
      intro k2 hk2
      rcases List.mem_append.mp hk2 with hk2 | hk2
      · rw [e_ver]; exact inv.hist_le k2 hk2
      · rw [List.mem_singleton.mp hk2]
        rw [show (⟨H, (m.entry H).version⟩ : Key).id = H from rfl, e_H]
    ·
      intro k2 hk2 hv
      rcases List.mem_append.mp hk2 with hk2 | hk2
      · rw [e_ver] at hv
        exact List.mem_append_left _ (inv.hist_live k2 hk2 hv)
      · rw [List.mem_singleton.mp hk2]
        exact List.mem_append_right _ (List.mem_singleton_self _)
    ·
      intro i hi
      rcases List.mem_append.mp hi with hi | hi
      · have hne : i ≠ H := fun he => hheadnd (he ▸ hi)
        have : keyFor M2 i = keyFor m i := by
          simp only [keyFor, e_ne i hne]
        rw [this]
        exact List.mem_append_left _ (inv.hist_dense i hi)
      · rw [List.mem_singleton.mp hi]
        have : keyFor M2 H = ⟨H, (m.entry H).version⟩ := by
          simp only [keyFor, e_H]
        rw [this]
        exact List.mem_append_right _ (List.mem_singleton_self _)
    ·
      rw [List.nodup_append]
      refine ⟨inv.hist_nodup, List.nodup_singleton _, ?_⟩
      intro k2 hk2 hk2s
      rw [List.mem_singleton.mp hk2s] at hk2
      have hle := inv.hist_le _ hk2
      simp only at hle
      have heq : (m.entry H).version = (⟨H, (m.entry H).version⟩ : Key).version := rfl
      have hlive := inv.hist_live _ hk2 (le_antisymm hle (le_refl _)).symm
      simp only at hlive
      exact hheadnd hlive

theorem mem_iff_getD {l : List Nat} {i : Nat} :
    i ∈ l ↔ ∃ j, j < l.length ∧ l.getD j 0 = i := by
  rw [List.mem_iff_getElem]
  constructor
  · rintro ⟨j, hj, hval⟩
    refine ⟨j, hj, ?_⟩
    rw [getD_idx_eq, List.getElem?_eq_getElem hj, hval]
    rfl
  · rintro ⟨j, hj, hval⟩
    refine ⟨j, hj, ?_⟩
    rw [getD_idx_eq, List.getElem?_eq_getElem hj] at hval
    exact hval

theorem AllocInv.occ_unique {m : SparseMap} {fl : List Nat} {issued : List Key}
    (inv : AllocInv m fl issued) {j1 j2 : Nat}
    (h1 : j1 < m.mDense.length) (h2 : j2 < m.mDense.length)
    (he : m.mDense.getD j1 0 = m.mDense.getD j2 0) : j1 = j2 := by
  have b1 := inv.dense_back j1 h1
  have b2 := inv.dense_back j2 h2
  rw [he] at b1
  omega

theorem erase_core {m : SparseMap} {fl : List Nat} {issued : List Key}
    (inv : AllocInv m fl issued) {k : Key} (hc : m.contains k = true)
    (f0 : k.id ∈ m.mDense)
    {md : List Nat} {msp : List SparseEntry}
    (f2 : ∀ i, i ∈ md ↔ (i ∈ m.mDense ∧ i ≠ k.id))
    (f3 : msp.length = m.mSparse.length)
    (f4 : ∀ i, (msp.getD i ⟨0, 0⟩).version = (m.entry i).version)
    (f5 : msp.getD k.id ⟨0, 0⟩ = m.entry k.id)
    (f6 : ∀ j, j < md.length → (msp.getD (md.getD j 0) ⟨0, 0⟩).denseIdx = j)
    (f9 : IsFreeList msp m.mFreelistHead fl) :
    ∃ fl2, AllocInv ((SparseMap.mk m.mFreelistHead md msp).freeSparseEntry k.id) fl2 issued ∧
      (((SparseMap.mk m.mFreelistHead md msp).freeSparseEntry k.id).mSparse.length
        = m.mSparse.length) ∧
      (∀ i, i ≠ k.id →
        (((SparseMap.mk m.mFreelistHead md msp).freeSparseEntry k.id).entry i).version
          = (m.entry i).version) ∧
      ((((SparseMap.mk m.mFreelistHead md msp).freeSparseEntry k.id).entry k.id).version
        = (m.entry k.id).version + 1) ∧
      (((SparseMap.mk m.mFreelistHead md msp).freeSparseEntry k.id).mDense = md) := by
  have klt : k.id < m.mSparse.length := (contains_iff.mp hc).1
  have kver : (m.entry k.id).version < DISABLED_VERSION := inv.dense_ver _ f0
  have knfl : k.id ∉ fl := inv.disj _ f0
  have kltm : k.id < msp.length := f3 ▸ klt
  have hv : ((SparseMap.mk m.mFreelistHead md msp).entry k.id).version
      = (m.entry k.id).version := by
    simp only [SparseMap.entry]
    exact congrArg SparseEntry.version f5
  by_cases hnd : ((SparseMap.mk m.mFreelistHead md msp).entry k.id).version + 1
      = DISABLED_VERSION
  · -- the generation increment reaches the sentinel: the slot is retired
    rw [freeSparseEntry_shape_retire kltm hnd]
    have e_ne : ∀ i, i ≠ k.id →
        (SparseMap.entry ⟨m.mFreelistHead, md, msp.set k.id ⟨INVALID_IDX, DISABLED_VERSION⟩⟩ i)
          = msp.getD i ⟨0, 0⟩ := by
      intro i hi
      simp only [SparseMap.entry]
      exact getD_set_ne (fun he => hi he.symm) _ _
    have e_k : (SparseMap.entry ⟨m.mFreelistHead, md,
        msp.set k.id ⟨INVALID_IDX, DISABLED_VERSION⟩⟩ k.id) = ⟨INVALID_IDX, DISABLED_VERSION⟩ := by
      simp only [SparseMap.entry]
      exact getD_set_self kltm _ _
    have e_ver : ∀ i, i ≠ k.id →
        (SparseMap.entry ⟨m.mFreelistHead, md,
          msp.set k.id ⟨INVALID_IDX, DISABLED_VERSION⟩⟩ i).version = (m.entry i).version := by
      intro i hi
      rw [e_ne i hi, f4]
    have hbump : (SparseMap.entry ⟨m.mFreelistHead, md,
        msp.set k.id ⟨INVALID_IDX, DISABLED_VERSION⟩⟩ k.id).version
          = (m.entry k.id).version + 1 := by
      rw [e_k]
      rw [hv] at hnd
      exact hnd.symm
    refine ⟨fl, ?_, by simp [f3], e_ver, hbump, rfl⟩
    refine
      { sparse_le := ?_, flist := ?_, fl_nodup := ?_, fl_ver := ?_,
        dense_lt := ?_, dense_back := ?_, dense_ver := ?_, disj := ?_, cover := ?_,
        hist_lt := ?_, hist_le := ?_, hist_live := ?_, hist_dense := ?_,
        hist_nodup := ?_ }
    · simp only [List.length_set, f3]
      exact inv.sparse_le
    · exact isFreeList_set_notmem f9 k.id _ knfl
    · exact inv.fl_nodup
    · intro i hi
      have hik : i ≠ k.id := fun he => knfl (he ▸ hi)
      rw [e_ver i hik]
      exact inv.fl_ver i hi
    · intro i hi
      have := inv.dense_lt i ((f2 i).mp hi).1
      simp only [List.length_set, f3]
      exact this
    · intro j hj
      have hmem : md.getD j 0 ∈ md := getD_mem hj 0
      have hne : md.getD j 0 ≠ k.id := ((f2 _).mp hmem).2
      rw [e_ne _ hne]
      exact f6 j hj
    · intro i hi
      have hne : i ≠ k.id := ((f2 i).mp hi).2
      rw [e_ver i hne]
      exact inv.dense_ver i ((f2 i).mp hi).1
    · intro i hi
      exact inv.disj i ((f2 i).mp hi).1
    · intro i hi
      simp only [List.length_set, f3] at hi
      by_cases hik : i = k.id
      · left
        rw [hik, e_k]
      · rcases inv.cover i hi with hcv | hcv | hcv
        · left
          rw [e_ver i hik]
          exact hcv
        · right; left
          exact (f2 i).mpr ⟨hcv, hik⟩
        · right; right
          exact hcv
    · intro k2 hk2
      simp only [List.length_set, f3]
      exact inv.hist_lt k2 hk2
    · intro k2 hk2
      by_cases hik : k2.id = k.id
      · have h1 := inv.hist_le k2 hk2
        rw [hik] at h1
        have h2 : (SparseMap.entry ⟨m.mFreelistHead, md,
            msp.set k.id ⟨INVALID_IDX, DISABLED_VERSION⟩⟩ k.id).version
              = DISABLED_VERSION := by rw [e_k]
        rw [hik, h2]
        omega
      · rw [e_ver _ hik]
        exact inv.hist_le k2 hk2
    · intro k2 hk2 hveq
      by_cases hik : k2.id = k.id
      · exfalso
        rw [hik, e_k] at hveq
        have hveq2 : k2.version = DISABLED_VERSION := hveq
        have := inv.hist_le k2 hk2
        rw [hik] at this
        omega
      · rw [e_ver _ hik] at hveq
        exact (f2 _).mpr ⟨inv.hist_live k2 hk2 hveq, hik⟩
    · intro i hi
      have hne : i ≠ k.id := ((f2 i).mp hi).2
      have : keyFor ⟨m.mFreelistHead, md, msp.set k.id ⟨INVALID_IDX, DISABLED_VERSION⟩⟩ i
          = keyFor m i := by
        simp only [keyFor, e_ver i hne]
      rw [this]
      exact inv.hist_dense i ((f2 i).mp hi).1
    · exact inv.hist_nodup
  · -- the slot is recycled onto the free list
    have hvlt : ((SparseMap.mk m.mFreelistHead md msp).entry k.id).version
        < DISABLED_VERSION := by
      rw [hv]; exact kver
    rw [freeSparseEntry_shape_recycle kltm hnd hvlt]
    set v1 : Nat := ((SparseMap.mk m.mFreelistHead md msp).entry k.id).version + 1 with hv1
    have e_ne : ∀ i, i ≠ k.id →
        (SparseMap.entry ⟨k.id, md, msp.set k.id ⟨m.mFreelistHead, v1⟩⟩ i)
          = msp.getD i ⟨0, 0⟩ := by
      intro i hi
      simp only [SparseMap.entry]
      exact getD_set_ne (fun he => hi he.symm) _ _
    have e_k : (SparseMap.entry ⟨k.id, md, msp.set k.id ⟨m.mFreelistHead, v1⟩⟩ k.id)
        = ⟨m.mFreelistHead, v1⟩ := by
      simp only [SparseMap.entry]
      exact getD_set_self kltm _ _
    have e_ver : ∀ i, i ≠ k.id →
        (SparseMap.entry ⟨k.id, md, msp.set k.id ⟨m.mFreelistHead, v1⟩⟩ i).version
          = (m.entry i).version := by
      intro i hi
      rw [e_ne i hi, f4]
    have hv1eq : v1 = (m.entry k.id).version + 1 := by
      rw [hv1, hv]
    have hv1lt : v1 < DISABLED_VERSION := by
      have h1 : v1 ≠ DISABLED_VERSION := hv1 ▸ hnd
      omega
    have hbump : (SparseMap.entry ⟨k.id, md,
        msp.set k.id ⟨m.mFreelistHead, v1⟩⟩ k.id).version
          = (m.entry k.id).version + 1 := by
      rw [e_k]
      exact hv1eq
    refine ⟨k.id :: fl, ?_, by simp [f3], e_ver, hbump, rfl⟩
    refine
      { sparse_le := ?_, flist := ?_, fl_nodup := ?_, fl_ver := ?_,
        dense_lt := ?_, dense_back := ?_, dense_ver := ?_, disj := ?_, cover := ?_,
        hist_lt := ?_, hist_le := ?_, hist_live := ?_, hist_dense := ?_,
        hist_nodup := ?_ }
    · simp only [List.length_set, f3]
      exact inv.sparse_le
    · exact isFreeList_push f9 k.id kltm knfl v1
    · rw [List.nodup_cons]
      exact ⟨knfl, inv.fl_nodup⟩
    · intro i hi
      rcases List.mem_cons.mp hi with hik | hi
    
      · rw [hik, e_k]
        exact hv1lt
      · have hik : i ≠ k.id := fun he => knfl (he ▸ hi)
        rw [e_ver i hik]
        exact inv.fl_ver i hi
    · intro i hi
      have := inv.dense_lt i ((f2 i).mp hi).1
      simp only [List.length_set, f3]
      exact this
    · intro j hj
      have hmem : md.getD j 0 ∈ md := getD_mem hj 0
      have hne : md.getD j 0 ≠ k.id := ((f2 _).mp hmem).2
      rw [e_ne _ hne]
      exact f6 j hj
    · intro i hi
      have hne : i ≠ k.id := ((f2 i).mp hi).2
      rw [e_ver i hne]
      exact inv.dense_ver i ((f2 i).mp hi).1
    · intro i hi hif
      rcases List.mem_cons.mp hif with hik | hif
      · exact ((f2 i).mp hi).2 hik
      · exact inv.disj i ((f2 i).mp hi).1 hif
    · intro i hi
      simp only [List.length_set, f3] at hi
      by_cases hik : i = k.id
      · right; right
        rw [hik]
        exact List.mem_cons_self _ _
      · rcases inv.cover i hi with hcv | hcv | hcv
        · left
          rw [e_ver i hik]
          exact hcv
        · right; left
          exact (f2 i).mpr ⟨hcv, hik⟩
        · right; right
          exact List.mem_cons_of_mem _ hcv
    · intro k2 hk2
      simp only [List.length_set, f3]
      exact inv.hist_lt k2 hk2
    · intro k2 hk2
      by_cases hik : k2.id = k.id
      · have h1 := inv.hist_le k2 hk2
        rw [hik] at h1
        have h2 : (SparseMap.entry ⟨k.id, md,
            msp.set k.id ⟨m.mFreelistHead, v1⟩⟩ k.id).version = v1 := by rw [e_k]
        rw [hik, h2, hv1eq]
        omega
      · rw [e_ver _ hik]
        exact inv.hist_le k2 hk2
    · intro k2 hk2 hveq
      by_cases hik : k2.id = k.id
      · exfalso
        rw [hik, e_k] at hveq
        have hveq2 : k2.version = v1 := hveq
        have h1 := inv.hist_le k2 hk2
        rw [hik] at h1
        omega
      · rw [e_ver _ hik] at hveq
        exact (f2 _).mpr ⟨inv.hist_live k2 hk2 hveq, hik⟩
    · intro i hi
      have hne : i ≠ k.id := ((f2 i).mp hi).2
      have : keyFor ⟨k.id, md, msp.set k.id ⟨m.mFreelistHead, v1⟩⟩ i = keyFor m i := by
        simp only [keyFor, e_ver i hne]
      rw [this]
      exact inv.hist_dense i ((f2 i).mp hi).1
    · exact inv.hist_nodup

theorem alloc_erase_spec {m : SparseMap} {fl : List Nat} {issued : List Key}
    (inv : AllocInv m fl issued) {k : Key} (hk : k ∈ issued)
    (hc : m.contains k = true) :
    ∃ fl2, AllocInv ((m.erase k).2) fl2 issued ∧
      (m.erase k).1 = true ∧
      ((m.erase k).2).mSparse.length = m.mSparse.length ∧
      (∀ i, i ≠ k.id → (((m.erase k).2).entry i).version = (m.entry i).version) ∧
      ((((m.erase k).2).entry k.id).version = (m.entry k.id).version + 1) ∧
      (∀ i, i ∈ ((m.erase k).2).mDense ↔ (i ∈ m.mDense ∧ i ≠ k.id)) ∧
      ((m.erase k).2).mDense.length = m.mDense.length - 1 := by
  have hveq : (m.entry k.id).version = k.version := (contains_iff.mp hc).2
  have f0 : k.id ∈ m.mDense := inv.hist_live k hk hveq.symm
  obtain ⟨hposlt, hposval⟩ := inv.dense_pos f0
  have hn1 : 1 ≤ m.mDense.length := by omega
  have hlastlt : m.mDense.length - 1 < m.mDense.length := by omega
  have hlastmem : m.mDense.getD (m.mDense.length - 1) 0 ∈ m.mDense := getD_mem hlastlt 0
  have hgetLast : m.mDense.getLastD 0 = m.mDense.getD (m.mDense.length - 1) 0 :=
    getLastD_eq_getD _ _
  by_cases hbr : (m.entry k.id).denseIdx = m.mDense.length - 1
  · -- the released handle occupies the last dense position: plain pop_back
    rw [erase_shape_last hc hbr]
    have f2 : ∀ i, i ∈ m.mDense.dropLast ↔ (i ∈ m.mDense ∧ i ≠ k.id) := by
      intro i
      constructor
      · intro hi
        obtain ⟨j, hj, hval⟩ := mem_iff_getD.mp hi
        rw [List.length_dropLast] at hj
        rw [getD_dropLast hj] at hval
        refine ⟨hval ▸ getD_mem (by omega) 0, ?_⟩
        intro he
        have : j = (m.entry k.id).denseIdx :=
          inv.occ_unique (by omega) hposlt (by rw [hval, he, hposval])
        omega
      · rintro ⟨hi, hne⟩
        obtain ⟨j, hj, hval⟩ := mem_iff_getD.mp hi
        have hjp : j ≠ (m.entry k.id).denseIdx := by
          intro he
          rw [he, hposval] at hval
          exact hne hval.symm
        have hjlt : j < m.mDense.length - 1 := by omega
        apply mem_iff_getD.mpr
        refine ⟨j, by simpa using hjlt, ?_⟩
        rw [getD_dropLast hjlt]
        exact hval
    have f6 : ∀ j, j < m.mDense.dropLast.length →
        (m.mSparse.getD (m.mDense.dropLast.getD j 0) ⟨0, 0⟩).denseIdx = j := by
      intro j hj
      rw [List.length_dropLast] at hj
      rw [getD_dropLast hj]
      exact inv.dense_back j (by omega)
    obtain ⟨fl2, hinv, hlen, hver, hbump, hdense⟩ :=
      erase_core inv hc f0 f2 rfl (fun _ => rfl) rfl f6 inv.flist
    refine ⟨fl2, hinv, rfl, hlen, hver, hbump, ?_, ?_⟩
    · intro i
      rw [hdense]
      exact f2 i
    · rw [hdense]
      simp
  · -- swap-and-pop: the last dense entry moves into the released position
    rw [erase_shape_swap hc hbr]
    rw [hgetLast]
    have hkl : m.mDense.getD (m.mDense.length - 1) 0 ≠ k.id := by
      intro he
      have : m.mDense.length - 1 = (m.entry k.id).denseIdx :=
        inv.occ_unique hlastlt hposlt (by rw [he, hposval])
      omega
    have hlastsp : m.mDense.getD (m.mDense.length - 1) 0 < m.mSparse.length :=
      inv.dense_lt _ hlastmem
    have hlastnfl : m.mDense.getD (m.mDense.length - 1) 0 ∉ fl := inv.disj _ hlastmem
    have hposlt1 : (m.entry k.id).denseIdx < m.mDense.length - 1 := by omega
    have hsetlen : ((m.mDense.set (m.entry k.id).denseIdx
        (m.mDense.getD (m.mDense.length - 1) 0)).set
        (m.mDense.length - 1) (m.mDense.getD (m.entry k.id).denseIdx 0)).length
          = m.mDense.length := by simp
    have hmdlen : ((m.mDense.set (m.entry k.id).denseIdx
        (m.mDense.getD (m.mDense.length - 1) 0)).set
        (m.mDense.length - 1) (m.mDense.getD (m.entry k.id).denseIdx 0)).dropLast.length
          = m.mDense.length - 1 := by simp
    have hmdgetD : ∀ j, j < m.mDense.length - 1 →
        ((m.mDense.set (m.entry k.id).denseIdx
          (m.mDense.getD (m.mDense.length - 1) 0)).set
          (m.mDense.length - 1) (m.mDense.getD (m.entry k.id).denseIdx 0)).dropLast.getD j 0
        = if j = (m.entry k.id).denseIdx then m.mDense.getD (m.mDense.length - 1) 0
          else m.mDense.getD j 0 := by
      intro j hj
      rw [getD_dropLast (by rw [hsetlen]; omega)]
      rw [getD_set_ne (by omega)]
      by_cases hjp : j = (m.entry k.id).denseIdx
      · rw [hjp, getD_set_self hposlt]
        simp [hjp]
      · rw [getD_set_ne (fun he => hjp he.symm)]
        simp [hjp]
    have f2 : ∀ i, i ∈ ((m.mDense.set (m.entry k.id).denseIdx
        (m.mDense.getD (m.mDense.length - 1) 0)).set
        (m.mDense.length - 1) (m.mDense.getD (m.entry k.id).denseIdx 0)).dropLast
          ↔ (i ∈ m.mDense ∧ i ≠ k.id) := by
      intro i
      constructor
      · intro hi
        obtain ⟨j, hj, hval⟩ := mem_iff_getD.mp hi
        rw [hmdlen] at hj
        rw [hmdgetD j hj] at hval
        by_cases hjp : j = (m.entry k.id).denseIdx
        · rw [if_pos hjp] at hval
          exact ⟨hval ▸ hlastmem, hval ▸ hkl⟩
        · rw [if_neg hjp] at hval
          refine ⟨hval ▸ getD_mem (by omega) 0, ?_⟩
          intro he
          exact hjp (inv.occ_unique (by omega) hposlt (by rw [hval, he, hposval]))
      · rintro ⟨hi, hne⟩
        obtain ⟨j, hj, hval⟩ := mem_iff_getD.mp hi
        have hjp : j ≠ (m.entry k.id).denseIdx := by
          intro he
          rw [he, hposval] at hval
          exact hne hval.symm
        apply mem_iff_getD.mpr
        by_cases hjl : j = m.mDense.length - 1
        · refine ⟨(m.entry k.id).denseIdx, by rw [hmdlen]; omega, ?_⟩
          rw [hmdgetD _ hposlt1, if_pos rfl, ← hjl]
          exact hval
        · refine ⟨j, by rw [hmdlen]; omega, ?_⟩
          rw [hmdgetD j (by omega), if_neg hjp]
          exact hval
    have f3 : (m.mSparse.set (m.mDense.getD (m.mDense.length - 1) 0)
        { m.entry (m.mDense.getD (m.mDense.length - 1) 0) with
            denseIdx := (m.entry k.id).denseIdx }).length = m.mSparse.length := by simp
    have f4 : ∀ i, ((m.mSparse.set (m.mDense.getD (m.mDense.length - 1) 0)
        { m.entry (m.mDense.getD (m.mDense.length - 1) 0) with
            denseIdx := (m.entry k.id).denseIdx }).getD i ⟨0, 0⟩).version
          = (m.entry i).version := by
      intro i
      by_cases hil : i = m.mDense.getD (m.mDense.length - 1) 0
      · rw [hil, getD_set_self hlastsp]
      · rw [getD_set_ne (fun he => hil he.symm)]
        rfl
    have f5 : (m.mSparse.set (m.mDense.getD (m.mDense.length - 1) 0)
        { m.entry (m.mDense.getD (m.mDense.length - 1) 0) with
            denseIdx := (m.entry k.id).denseIdx }).getD k.id ⟨0, 0⟩ = m.entry k.id := by
      rw [getD_set_ne hkl]
      rfl
    have f6 : ∀ j, j < ((m.mDense.set (m.entry k.id).denseIdx
        (m.mDense.getD (m.mDense.length - 1) 0)).set
        (m.mDense.length - 1) (m.mDense.getD (m.entry k.id).denseIdx 0)).dropLast.length →
        ((m.mSparse.set (m.mDense.getD (m.mDense.length - 1) 0)
          { m.entry (m.mDense.getD (m.mDense.length - 1) 0) with
              denseIdx := (m.entry k.id).denseIdx }).getD
          (((m.mDense.set (m.entry k.id).denseIdx
            (m.mDense.getD (m.mDense.length - 1) 0)).set
            (m.mDense.length - 1) (m.mDense.getD (m.entry k.id).denseIdx 0)).dropLast.getD j 0)
          ⟨0, 0⟩).denseIdx = j := by
      intro j hj
      rw [hmdlen] at hj
      rw [hmdgetD j hj]
      by_cases hjp : j = (m.entry k.id).denseIdx
      · rw [if_pos hjp, getD_set_self hlastsp]
        exact hjp.symm
      · rw [if_neg hjp]
        have hje : m.mDense.getD j 0 ≠ m.mDense.getD (m.mDense.length - 1) 0 := by
          intro he
          exact absurd (inv.occ_unique (by omega) hlastlt he) (by omega)
        rw [getD_set_ne (fun he => hje he.symm)]
        exact inv.dense_back j (by omega)
    have f9 : IsFreeList (m.mSparse.set (m.mDense.getD (m.mDense.length - 1) 0)
        { m.entry (m.mDense.getD (m.mDense.length - 1) 0) with
            denseIdx := (m.entry k.id).denseIdx }) m.mFreelistHead fl :=
      isFreeList_set_notmem inv.flist _ _ hlastnfl
    obtain ⟨fl2, hinv, hlen, hver, hbump, hdense⟩ :=
      erase_core inv hc f0 f2 f3 f4 f5 f6 f9
    refine ⟨fl2, hinv, rfl, ?_, hver, hbump, ?_, ?_⟩
    · rw [hlen]
    · intro i
      rw [hdense]
      exact f2 i
    · rw [hdense, hmdlen]

theorem empty_inv : AllocInv {} [] [] := by
  refine
    { sparse_le := Nat.zero_le _, flist := IsFreeList.nil, fl_nodup := List.nodup_nil,
      fl_ver := ?_, dense_lt := ?_, dense_back := ?_, dense_ver := ?_, disj := ?_,
      cover := ?_, hist_lt := ?_, hist_le := ?_, hist_live := ?_, hist_dense := ?_,
      hist_nodup := List.nodup_nil } <;>
    intro x hx <;> simp at hx

theorem runTrace_inv (ops : List SMOp) :
    ∀ (m : SparseMap) (issued : List Key) (m2 : SparseMap) (issued2 : List Key),
    (∃ fl, AllocInv m fl issued) → m.runTrace issued ops = (m2, issued2) →
    (∃ fl2, AllocInv m2 fl2 issued2) ∧
    (∃ app, issued2 = issued ++ app) ∧
    (∀ i, (m.entry i).version ≤ (m2.entry i).version) ∧
    (∀ i, (m.entry i).version = DISABLED_VERSION →
      (m2.entry i).version = DISABLED_VERSION ∧
      ∀ k2 ∈ issued2.drop issued.length, k2.id ≠ i) := by
  induction ops with
  | nil =>
    intro m issued m2 issued2 hinv h
    rw [SparseMap.runTrace] at h
    obtain ⟨rfl, rfl⟩ := Prod.mk.injEq _ _ _ _ ▸ h
    refine ⟨hinv, ⟨[], by simp⟩, fun i => le_refl _, fun i hd => ⟨hd, ?_⟩⟩
    intro k2 hk2
    rw [List.drop_length] at hk2
    exact absurd hk2 (List.not_mem_nil k2)
  | cons op ops ih =>
    intro m issued m2 issued2 hinv h
    cases op with
    | allocate =>
      rw [SparseMap.runTrace] at h
      cases hins : m.insert with
      | none =>
        rw [hins] at h
        exact ih m issued m2 issued2 hinv h
      | some p =>
        obtain ⟨k, m1⟩ := p
        rw [hins] at h
        obtain ⟨fl, hfl⟩ := hinv
        obtain ⟨fl1, hinv1, hdense1, hsplen1, hver1, hkver, hkcont⟩ := alloc_insert_spec hfl hins
        obtain ⟨hinv2, ⟨app, happ⟩, hmono, hdis⟩ :=
          ih m1 (issued ++ [k]) m2 issued2 ⟨fl1, hinv1⟩ h
        refine ⟨hinv2, ⟨k :: app, by rw [happ, List.append_assoc]; rfl⟩, ?_, ?_⟩
        · intro i
          exact le_trans (le_of_eq (hver1 i).symm) (hmono i)
        · intro i hdi
          have hdi1 : (m1.entry i).version = DISABLED_VERSION := by
            rw [hver1 i]; exact hdi
          obtain ⟨hd2, hknew⟩ := hdis i hdi1
          refine ⟨hd2, ?_⟩
          intro k2 hk2
          have hsplit : issued2 = issued ++ (k :: app) := by
            rw [happ, List.append_assoc]; rfl
          rw [hsplit, List.drop_left] at hk2
          rcases List.mem_cons.mp hk2 with rfl | hk2
          · -- the newly issued key: its slot is live, hence not retired
            have hkmem : k2.id ∈ m1.mDense := by
              rw [hdense1]
              exact List.mem_append_right _ (List.mem_singleton_self _)
            have := hinv1.dense_ver _ hkmem
            intro he
            rw [he, hdi1] at this
            omega
          · have := hknew k2
            rw [happ, List.drop_left] at this
            exact this hk2
    | release j =>
      rw [SparseMap.runTrace] at h
      cases hcon : m.contains (issued.getD j ⟨INVALID_IDX, 0⟩) with
      | false =>
        rw [erase_shape_fail hcon] at h
        exact ih m issued m2 issued2 hinv h
      | true =>
        obtain ⟨fl, hfl⟩ := hinv
        have hklt : j < issued.length := by
          by_contra hge
          rw [getD_oob (Nat.le_of_not_lt hge)] at hcon
          have := (contains_iff.mp hcon).1
          have h1 : SPARSE_MAX_IDX < INVALID_IDX := by decide
          have h2 := hfl.sparse_le
          simp only at this
          omega
        have hkmem : issued.getD j ⟨INVALID_IDX, 0⟩ ∈ issued := getD_mem hklt _
        obtain ⟨fl1, hinv1, _, hsplen1, hver_ne, hver_k, hmem1, hlen1⟩ :=
          alloc_erase_spec hfl hkmem hcon
        obtain ⟨hinv2, happ, hmono, hdis⟩ :=
          ih _ issued m2 issued2 ⟨fl1, hinv1⟩ h
        have hkd : (issued.getD j ⟨INVALID_IDX, 0⟩).id ∈ m.mDense :=
          hfl.hist_live _ hkmem (contains_iff.mp hcon).2.symm
        refine ⟨hinv2, happ, ?_, ?_⟩
        · intro i
          by_cases hik : i = (issued.getD j ⟨INVALID_IDX, 0⟩).id
          · refine le_trans ?_ (hmono i)
            rw [hik, hver_k]
            omega
          · exact le_trans (le_of_eq (hver_ne i hik).symm) (hmono i)
        · intro i hdi
          have hkdne : (issued.getD j ⟨INVALID_IDX, 0⟩).id ≠ i := by
            intro he
            have := hfl.dense_ver _ hkd
            rw [he, hdi] at this
            omega
          have hdi1 : (((m.erase (issued.getD j ⟨INVALID_IDX, 0⟩)).2).entry i).version
              = DISABLED_VERSION := by
            rw [hver_ne i (fun he => hkdne he.symm)]
            exact hdi
          exact hdis i hdi1

theorem size_filter_of_inv {m : SparseMap} {fl : List Nat} {issued : List Key}
    (inv : AllocInv m fl issued) :
    m.size = (issued.filter (fun k => m.contains k)).length := by
  have hinj : Function.Injective (keyFor m) := by
    intro a b hab
    exact congrArg Key.id hab
  have hLnd : (issued.filter (fun k => m.contains k)).Nodup :=
    inv.hist_nodup.filter _
  have hMnd : (m.mDense.map (keyFor m)).Nodup := inv.dense_nodup.map hinj
  have hset : (issued.filter (fun k => m.contains k)).toFinset
      = (m.mDense.map (keyFor m)).toFinset := by
    ext k2
    rw [List.mem_toFinset, List.mem_toFinset, List.mem_filter, List.mem_map]
    constructor
    · rintro ⟨hmem, hcont⟩
      refine ⟨k2.id, inv.hist_live k2 hmem (contains_iff.mp hcont).2.symm, ?_⟩
      have hver := (contains_iff.mp hcont).2
      cases k2 with
      | mk i v =>
        simp only [keyFor]
        simp only at hver
        rw [hver]
    · rintro ⟨i, hi, rfl⟩
      refine ⟨inv.hist_dense i hi, ?_⟩
      apply contains_iff.mpr
      exact ⟨inv.dense_lt i hi, rfl⟩
  have h1 : (issued.filter (fun k => m.contains k)).length
      = (issued.filter (fun k => m.contains k)).toFinset.card :=
    (List.toFinset_card_of_nodup hLnd).symm
  have h2 : (m.mDense.map (keyFor m)).toFinset.card = (m.mDense.map (keyFor m)).length :=
    List.toFinset_card_of_nodup hMnd
  rw [SparseMap.size, h1, hset, h2, List.length_map]

/-- C2: over any trace of allocate/release operations on one HandleAllocator
(without clear, releases drawn from the handles the allocator itself issued),
(a) the keys returned by allocate are pairwise distinct — in particular no
two concurrently-live handles ever share an (index, generation) pair;
(b) once a slot's generation reaches the disabled sentinel, it stays there
and the slot's index is never again returned by allocate; and
(c) size() stays correct: it equals the number of issued handles that still
resolve. -/
theorem allocator_handles_unique (ops1 ops2 : List SMOp) (m1 : SparseMap)
    (issued1 : List Key) (m2 : SparseMap) (issued2 : List Key) (i : Nat)
    (h1 : SparseMap.runTrace {} [] ops1 = (m1, issued1))
    (h2 : SparseMap.runTrace m1 issued1 ops2 = (m2, issued2)) :
    issued2.Nodup ∧
    ((m1.entry i).version = DISABLED_VERSION →
      ∀ k ∈ issued2.drop issued1.length, k.id ≠ i) ∧
    m2.size = (issued2.filter (fun k => m2.contains k)).length := by
  obtain ⟨inv1, _, _, _⟩ := runTrace_inv ops1 {} [] m1 issued1 ⟨[], empty_inv⟩ h1
  obtain ⟨⟨fl2, inv2⟩, _, _, hdis⟩ := runTrace_inv ops2 m1 issued1 m2 issued2 inv1 h2
  exact ⟨inv2.hist_nodup, fun hd => (hdis i hd).2, size_filter_of_inv inv2⟩

/-- Witness for allocator_handles_unique on the concrete trace
allocate; allocate; release-of-first. -/
theorem allocator_handles_unique_witness :
    ([⟨0, 0⟩, ⟨1, 0⟩] : List Key).Nodup ∧
    ((SparseMap.entry {} 3).version = DISABLED_VERSION →
      ∀ k ∈ ([⟨0, 0⟩, ⟨1, 0⟩] : List Key).drop ([] : List Key).length, k.id ≠ 3) ∧
    (SparseMap.mk 0 [1] [⟨4294967294, 1⟩, ⟨0, 0⟩]).size =
      (([⟨0, 0⟩, ⟨1, 0⟩] : List Key).filter
        (fun k => (SparseMap.mk 0 [1] [⟨4294967294, 1⟩, ⟨0, 0⟩]).contains k)).length :=
  allocator_handles_unique [] [SMOp.allocate, SMOp.allocate, SMOp.release 0]
    {} [] (SparseMap.mk 0 [1] [⟨4294967294, 1⟩, ⟨0, 0⟩]) [⟨0, 0⟩, ⟨1, 0⟩] 3 rfl rfl

theorem listSwap_length (l : List α) (i j : Nat) : (listSwap l i j).length = l.length := by
  unfold listSwap
  split <;> simp

theorem dead_not_contains {m : SparseMap} {k : Key} (h : Dead m k) :
    m.contains k = false := by
  obtain ⟨h1, h2⟩ := h
  apply contains_false_iff.mpr
  right
  omega

theorem contains_mono_insert {m m2 : SparseMap} {k2 : Key}
    (hsp : m.mSparse.length ≤ m2.mSparse.length)
    (hver : ∀ i, (m2.entry i).version = (m.entry i).version)
    (hc : m.contains k2 = true) : m2.contains k2 = true := by
  obtain ⟨h1, h2⟩ := contains_iff.mp hc
  exact contains_iff.mpr ⟨by omega, by rw [hver]; exact h2⟩

theorem insertAll_cons_eq {V : Type} {s : SlotMap V} {v : V} (vs : List V)
    {k : Key} {s1 : SlotMap V} (hins : s.insert v = some (k, s1)) :
    s.insertAll (v :: vs) =
      match s1.insertAll vs with
      | none => none
      | some (s2, ks) => some (s2, k :: ks) := by
  rw [SlotMap.insertAll, hins]

theorem insertAll_spec {V : Type} (values : List V) :
    ∀ (s : SlotMap V) (issued : List Key) (s2 : SlotMap V) (ks : List Key),
    SlotInv s issued → s.insertAll values = some (s2, ks) →
    SlotInv s2 (issued ++ ks) ∧
    (∀ k ∈ ks, s2.mMapping.contains k = true) ∧
    (∀ k2, s.mMapping.contains k2 = true → s2.mMapping.contains k2 = true) ∧
    ks.length = values.length ∧
    s2.size = s.size + values.length := by
  induction values with
  | nil =>
    intro s issued s2 ks hinv h
    rw [SlotMap.insertAll] at h
    obtain ⟨rfl, rfl⟩ := Prod.mk.injEq _ _ _ _ ▸ Option.some.inj h
    refine ⟨by simpa using hinv, ?_, fun k2 hc => hc, rfl, by simp [SlotMap.size]⟩
    intro k hk
    exact absurd hk (List.not_mem_nil k)
  | cons v vs ih =>
    intro s issued s2 ks hinv h
    obtain ⟨⟨fl, hfl⟩, hstlen⟩ := hinv
    cases hmins : s.mMapping.insert with
    | none =>
      have hins0 : s.insert v = none := by rw [SlotMap.insert, hmins]
      rw [SlotMap.insertAll, hins0] at h
      exact Option.noConfusion h
    | some p =>
      obtain ⟨k, mm⟩ := p
      have hins : s.insert v =
          some (k, { mMapping := mm, mStorage := s.mStorage ++ [v] }) := by
        rw [SlotMap.insert, hmins]
      rw [insertAll_cons_eq vs hins] at h
      cases hall : SlotMap.insertAll
          { mMapping := mm, mStorage := s.mStorage ++ [v] } vs with
      | none => rw [hall] at h; exact Option.noConfusion h
      | some q =>
        obtain ⟨s2x, ksx⟩ := q
        rw [hall] at h
        obtain ⟨he1, he2⟩ := Prod.mk.injEq _ _ _ _ ▸ Option.some.inj h
        subst he1
        subst he2
        obtain ⟨fl1, hinv1, hdense1, hsplen1, hver1, hkver, hkcont⟩ :=
          alloc_insert_spec hfl hmins
        have hinvS1 : SlotInv
            ({ mMapping := mm, mStorage := s.mStorage ++ [v] } : SlotMap V)
            (issued ++ [k]) := by
          refine ⟨⟨fl1, hinv1⟩, ?_⟩
          simp only [List.length_append, List.length_singleton, hdense1, hstlen]
        obtain ⟨hinv2, hks2, hmono2, hlen2, hsz2⟩ :=
          ih _ (issued ++ [k]) s2x ksx hinvS1 hall
        refine ⟨by rw [List.append_assoc] at hinv2; exact hinv2, ?_, ?_, ?_, ?_⟩
        · intro kx hkx
          rcases List.mem_cons.mp hkx with rfl | hkx
          · exact hmono2 kx hkcont
          · exact hks2 kx hkx
        · intro k2 hc
          exact hmono2 k2 (contains_mono_insert hsplen1 hver1 hc)
        · simp [hlen2]
        · rw [hsz2]
          have hs1size : SlotMap.size
              ({ mMapping := mm, mStorage := s.mStorage ++ [v] } : SlotMap V)
                = s.size + 1 := by
            simp [SlotMap.size]
          rw [hs1size]
          simp only [List.length_cons]
          omega

theorem removeAll_spec {V : Type} (order : List Key) :
    ∀ (s : SlotMap V) (issued : List Key),
    SlotInv s issued → order.Nodup →
    (∀ k ∈ order, k ∈ issued ∧ s.mMapping.contains k = true) →
    ∃ s2, s.removeAll order = some s2 ∧
      SlotInv s2 issued ∧
      s2.size = s.size - order.length ∧
      (∀ k ∈ order, Dead s2.mMapping k) ∧
      (∀ k, Dead s.mMapping k → Dead s2.mMapping k) := by
  induction order with
  | nil =>
    intro s issued hinv _ _
    exact ⟨s, rfl, hinv, by simp, fun k hk => absurd hk (List.not_mem_nil k),
      fun k hd => hd⟩
  | cons k rest ih =>
    intro s issued hinv hnd hall
    obtain ⟨hkiss, hkcont⟩ := hall k (List.mem_cons_self _ _)
    obtain ⟨⟨fl, hfl⟩, hstlen⟩ := hinv
    obtain ⟨fl1, hinv1, herased, hsplen1, hver_ne, hver_k, hmem1, hdlen1⟩ :=
      alloc_erase_spec hfl hkiss hkcont
    have hkd : k.id ∈ s.mMapping.mDense :=
      hfl.hist_live _ hkiss (contains_iff.mp hkcont).2.symm
    obtain ⟨hposlt, _⟩ := hfl.dense_pos hkd
    have hstor1 : 1 ≤ s.mStorage.length := by omega
    -- compute the remove call
    rw [SlotMap.removeAll]
    have hget : s.mMapping.get k = (s.mMapping.entry k.id).denseIdx := by
      simp [SparseMap.get, hkcont]
    have hswaplen : (if s.mStorage.length > 1 then
        listSwap s.mStorage (s.mMapping.get k) (s.mStorage.length - 1)
        else s.mStorage).length = s.mStorage.length := by
      split
      · exact listSwap_length _ _ _
      · rfl
    have hlast : ∃ val, (if s.mStorage.length > 1 then
        listSwap s.mStorage (s.mMapping.get k) (s.mStorage.length - 1)
        else s.mStorage).get? (s.mStorage.length - 1) = some val := by
      have hlt : s.mStorage.length - 1 < (if s.mStorage.length > 1 then
          listSwap s.mStorage (s.mMapping.get k) (s.mStorage.length - 1)
          else s.mStorage).length := by
        rw [hswaplen]
        omega
      cases hv : (if s.mStorage.length > 1 then
          listSwap s.mStorage (s.mMapping.get k) (s.mStorage.length - 1)
          else s.mStorage).get? (s.mStorage.length - 1) with
      | none =>
        rw [List.get?_eq_getElem?, List.getElem?_eq_none_iff] at hv
        omega
      | some val => exact ⟨val, rfl⟩
    obtain ⟨val, hval⟩ := hlast
    have hrem : s.remove k = (.ok val,
        { mMapping := (s.mMapping.erase k).2,
          mStorage := (if s.mStorage.length > 1 then
            listSwap s.mStorage (s.mMapping.get k) (s.mStorage.length - 1)
            else s.mStorage).dropLast }) := by
      simp only [SlotMap.remove, hkcont, Bool.not_true, if_false, ite_false,
        Bool.false_eq_true]
      rw [hval]
    rw [hrem]
    set s1 : SlotMap V :=
      { mMapping := (s.mMapping.erase k).2,
        mStorage := (if s.mStorage.length > 1 then
          listSwap s.mStorage (s.mMapping.get k) (s.mStorage.length - 1)
          else s.mStorage).dropLast } with hs1
    have hinvS1 : SlotInv s1 issued := by
      refine ⟨⟨fl1, hinv1⟩, ?_⟩
      simp only [hs1]
      rw [List.length_dropLast, hswaplen, hdlen1, hstlen]
    have hdeadk : Dead s1.mMapping k := by
      refine ⟨?_, ?_⟩
      · simp only [hs1, hsplen1]
        exact (contains_iff.mp hkcont).1
      · simp only [hs1, hver_k]
        rw [(contains_iff.mp hkcont).2]
        omega
    have hdeadmono : ∀ k2, Dead s.mMapping k2 → Dead s1.mMapping k2 := by
      intro k2 hd
      obtain ⟨hd1, hd2⟩ := hd
      by_cases hik : k2.id = k.id
      · refine ⟨by simp only [hs1]; rw [hsplen1]; exact hd1, ?_⟩
        simp only [hs1]
        rw [hik, hver_k]
        rw [hik] at hd2
        omega
      · exact ⟨by simp only [hs1]; rw [hsplen1]; exact hd1,
          by simp only [hs1]; rw [hver_ne _ hik]; exact hd2⟩
    have hrest : ∀ k2 ∈ rest, k2 ∈ issued ∧ s1.mMapping.contains k2 = true := by
      intro k2 hk2
      obtain ⟨hiss2, hcont2⟩ := hall k2 (List.mem_cons_of_mem _ hk2)
      refine ⟨hiss2, ?_⟩
      have hne : k2 ≠ k := by
        intro he
        rw [List.nodup_cons] at hnd
        exact hnd.1 (he ▸ hk2)
      have hidne : k2.id ≠ k.id := by
        intro he
        apply hne
        obtain ⟨_, hv2⟩ := contains_iff.mp hcont2
        obtain ⟨_, hvk⟩ := contains_iff.mp hkcont
        cases k2 with
        | mk i2 v2 =>
          cases k with
          | mk ik vk =>
            simp only at he hv2 hvk
            subst he
            rw [← hv2, ← hvk]
      obtain ⟨h1, h2⟩ := contains_iff.mp hcont2
      apply contains_iff.mpr
      constructor
      · simp only [hs1, hsplen1]
        exact h1
      · simp only [hs1]
        rw [hver_ne _ hidne]
        exact h2
    obtain ⟨s2, hrun, hinv2, hsz2, hdead2, hmono2⟩ :=
      ih s1 issued hinvS1 (List.nodup_cons.mp hnd).2 hrest
    refine ⟨s2, hrun, hinv2, ?_, ?_, fun k2 hd => hmono2 k2 (hdeadmono k2 hd)⟩
    · rw [hsz2]
      have : s1.size = s.size - 1 := by
        simp only [hs1, SlotMap.size, List.length_dropLast, hswaplen]
      rw [this]
      simp only [List.length_cons]
      omega
    · intro k2 hk2
      rcases List.mem_cons.mp hk2 with rfl | hk2
      · exact hmono2 k2 hdeadk
      · exact hdead2 k2 hk2

/-- C6: inserting N values into an empty ValueStore and then removing all N
returned handles, in any order, succeeds, leaves size() == 0, and every one
of the removed handles reports absence from get(). -/
theorem valueStore_insert_remove_roundtrip (V : Type) (values : List V)
    (s : SlotMap V) (ks order : List Key)
    (hins : SlotMap.insertAll {} values = some (s, ks))
    (hperm : order.Perm ks) :
    ∃ s2, s.removeAll order = some s2 ∧ s2.size = 0 ∧
      ∀ k ∈ ks, s2.get k = .ok none := by
  have hinv0 : SlotInv ({} : SlotMap V) [] := ⟨⟨[], empty_inv⟩, rfl⟩
  obtain ⟨hinvS, hcont, _, hlen, hsz⟩ := insertAll_spec values {} [] s ks hinv0 hins
  rw [List.nil_append] at hinvS
  have hknd : ks.Nodup := by
    obtain ⟨⟨fl, hfl⟩, _⟩ := hinvS
    exact hfl.hist_nodup
  have hond : order.Nodup := hperm.nodup_iff.mpr hknd
  have hoall : ∀ k ∈ order, k ∈ ks ∧ s.mMapping.contains k = true := by
    intro k hk
    have hkks : k ∈ ks := hperm.mem_iff.mp hk
    exact ⟨hkks, hcont k hkks⟩
  obtain ⟨s2, hrun, _, hsz2, hdead2, _⟩ := removeAll_spec order s ks hinvS hond hoall
  refine ⟨s2, hrun, ?_, ?_⟩
  · rw [hsz2, hsz, hperm.length_eq, hlen]
    simp [SlotMap.size]
  · intro k hk
    have hd : Dead s2.mMapping k := hdead2 k (hperm.mem_iff.mpr hk)
    have hcf : s2.mMapping.contains k = false := dead_not_contains hd
    simp [SlotMap.get, hcf]

/-- Witness for valueStore_insert_remove_roundtrip: two values removed in
reverse order. -/
theorem valueStore_insert_remove_roundtrip_witness :
    ∃ s2, (SlotMap.mk (SparseMap.mk 4294967294 [0, 1] [⟨0, 0⟩, ⟨1, 0⟩])
        ([5, 7] : List Nat)).removeAll [⟨1, 0⟩, ⟨0, 0⟩] = some s2 ∧
      s2.size = 0 ∧
      ∀ k ∈ ([⟨0, 0⟩, ⟨1, 0⟩] : List Key), s2.get k = .ok none :=
  valueStore_insert_remove_roundtrip Nat [5, 7]
    (SlotMap.mk (SparseMap.mk 4294967294 [0, 1] [⟨0, 0⟩, ⟨1, 0⟩]) [5, 7])
    [⟨0, 0⟩, ⟨1, 0⟩] [⟨1, 0⟩, ⟨0, 0⟩] rfl (by decide)
